import Mathlib

/-!
Shallow embedding of the fantasyNBA statistics core
(src/fantasynba: constants.py, utils.py, stats.py, players.py, matchups.py)
together with theorems settling the specification claims.

Modelling conventions.
* Python floats are modelled as real numbers.
* A Python dict with string keys is modelled either as an association list
  built with `dictInsert` (when insertion order or iteration matters) or as a
  function `String → Option ℝ` (when only lookup is used).  A key that is
  absent and a key that is present with value `None` are both modelled as
  `none`; the ESPN per-game average dictionaries hold only numbers.
* `scipy.stats.norm.cdf` is modelled by an explicit parameter `φ : ℝ → ℝ`.
  The facts the claims need about it (monotonicity, values inside the unit
  interval, strict separation of distinct arguments) are stated as hypotheses,
  and `phiClamp` below is one concrete function having all of them, used to
  instantiate witnesses and counterexamples.
-/

noncomputable section

-- ==========================================================================
-- Generic helpers: Python dicts as association lists, numpy mean and std
-- ==========================================================================
/-- Association list update with Python dict semantics: an existing key keeps
its position and receives the new value, a fresh key is appended at the end. -/
def dictInsert {β : Type} : List (String × β) → String → β → List (String × β)
  | [], k, v => [(k, v)]
  | (k', v') :: t, k, v =>
    if k' = k then (k, v) :: t else (k', v') :: dictInsert t k v

/-- Association list lookup, Python dict access by key. -/
def dictLookup {β : Type} (l : List (String × β)) (k : String) : Option β :=
  (l.find? (fun x => x.1 == k)).map (·.2)

/-- Arithmetic mean of a list of reals, numpy.mean. -/
def listMean (l : List ℝ) : ℝ := l.sum / l.length

/-- Population variance of a list of reals, the square of numpy.std. -/
def popVar (l : List ℝ) : ℝ :=
  ((l.map (fun v => (v - listMean l) ^ 2)).sum) / l.length

/-- Population standard deviation of a list of reals, numpy.std. -/
def popStd (l : List ℝ) : ℝ := Real.sqrt (popVar l)

/-- Minimum of a list of reals; the Python builtin min over a nonempty list
(the code never takes the minimum of an empty pool, the empty case is junk). -/
def listMin : List ℝ → ℝ
  | [] => 0
  | h :: t => t.foldl min h

-- ==========================================================================
-- constants.py
-- ==========================================================================
/-- constants.STAT_CATEGORIES. -/
def STAT_CATEGORIES : List String :=
  ["PTS", "BLK", "STL", "AST", "REB", "3PM", "FT%", "DD"]

/-- constants.STD_DEV_RATIOS as a lookup function on the five keys. -/
def STD_DEV_RATIOS : String → Option ℝ := fun s =>
  if s = "PTS" then some 0.35
  else if s = "REB" then some 0.4
  else if s = "AST" then some 0.45
  else if s = "BLK" then some 0.6
  else if s = "STL" then some 0.6
  else none

/-- The ratio lookup with default used by the code, STD_DEV_RATIOS.get(stat, 0.4). -/
def stdDevRatioOf (s : String) : ℝ := (STD_DEV_RATIOS s).getD 0.4

/-- constants.LINEUP_SLOTS. -/
def LINEUP_SLOTS : List String :=
  ["PG", "SG", "SF", "PF", "C", "G", "F", "UTIL", "UTIL", "UTIL"]

/-- constants.MATCHUP_SCHEDULE_2026: matchup id to scoring period ids.
Range bounds are exactly those of the Python dict. -/
def MATCHUP_SCHEDULE_2026 : List (Nat × List Nat) :=
  [(1, List.range' 1 6), (2, List.range' 7 7), (3, List.range' 14 7),
   (4, List.range' 21 7), (5, List.range' 28 7), (6, List.range' 35 7),
   (7, List.range' 42 7), (8, List.range' 49 7), (9, List.range' 56 7),
   (10, List.range' 63 7), (11, List.range' 70 7), (12, List.range' 77 7),
   (13, List.range' 84 7), (14, List.range' 91 7), (15, List.range' 98 7),
   (16, List.range' 105 7), (17, List.range' 112 14), (18, List.range' 126 7),
   (19, List.range' 133 7), (20, List.range' 140 7)]

/-- The dictionary access MATCHUP_SCHEDULE_2026.get(mid, []). -/
def scheduleLookup (mid : Nat) : List Nat :=
  ((MATCHUP_SCHEDULE_2026.find? (fun x => x.1 == mid)).map (·.2)).getD []

-- ==========================================================================
-- utils.py: convert_stat_key
-- ==========================================================================
/-- The key_map local dictionary of utils.convert_stat_key, with YEAR = 2026. -/
def statKeyMap : List (String × String) :=
  [("last_30", "2026_last_30"), ("last30", "2026_last_30"),
   ("last_15", "2026_last_15"), ("last15", "2026_last_15"),
   ("last_7", "2026_last_7"), ("last7", "2026_last_7"),
   ("total", "2026_total"), ("projected", "2026_projected"),
   ("projection", "2026_projected")]

/-- Python str.startswith, written over the character list so that it
computes inside proofs. -/
def strStartsWith (s pre : String) : Bool := pre.data.isPrefixOf s.data

/-- Python str.lower, written over the character list so that it computes
inside proofs (the stat keys are ASCII). -/
def strToLower (s : String) : String := ⟨s.data.map Char.toLower⟩

/-- utils.convert_stat_key: keys already in full format pass through, short
keys are mapped through key_map after lowercasing, and anything else raises
ValueError, modelled as Except.error. -/
def convert_stat_key (short_key : String) : Except String String :=
  if strStartsWith short_key "2026_" then Except.ok short_key
  else
    match dictLookup statKeyMap (strToLower short_key) with
    | some converted => Except.ok converted
    | none => Except.error ("Invalid stat_key " ++ short_key)

-- ==========================================================================
-- stats.py: calculate_expected_double_doubles
-- ==========================================================================
/-- The dd_stats list of stats.calculate_expected_double_doubles. -/
def ddStats : List String := ["PTS", "REB", "AST", "STL", "BLK"]

/-- The per-category success probability computed inside
calculate_expected_double_doubles: 0 for an absent or exactly zero average,
otherwise 1 - φ z where z = (9.5 - avg) / std when the derived standard
deviation std = avg * ratio is positive, and z = -999 otherwise. -/
def ddProb (φ : ℝ → ℝ) (r : ℝ) (avg : Option ℝ) : ℝ :=
  match avg with
  | none => 0
  | some a =>
    if a = 0 then 0
    else 1 - φ (if 0 < a * r then (9.5 - a) / (a * r) else -999)

/-- p_zero of calculate_expected_double_doubles: the product of the
per-category failure probabilities. -/
def pZero (ps : List ℝ) : ℝ := (ps.map (fun p => 1 - p)).prod

/-- p_one of calculate_expected_double_doubles: the sum over indices i of
probabilities[i] times the product over j ≠ i of the failure probabilities. -/
def pOne (ps : List ℝ) : ℝ :=
  ((List.range ps.length).map (fun i =>
    ps.getD i 0 *
      (((List.range ps.length).filter (fun j => j != i)).map
        (fun j => 1 - ps.getD j 0)).prod)).sum

/-- stats.calculate_expected_double_doubles with the normal cdf abstracted
as φ; returns 1 - p_zero - p_one over the five contributing categories. -/
def calculate_expected_double_doubles (φ : ℝ → ℝ) (stats_dict : String → Option ℝ) : ℝ :=
  let probabilities := ddStats.map (fun s => ddProb φ (stdDevRatioOf s) (stats_dict s))
  1 - pZero probabilities - pOne probabilities

/-- A concrete monotone function into the unit interval, standing in for the
normal cdf in witnesses and counterexamples; like the true normal cdf it is
monotone, valued in the unit interval, and separates -999 from -30. -/
def phiClamp (x : ℝ) : ℝ := max 0 (min 1 ((x + 1000) / 2000))

/-- Recursive form of the probability of exactly one success among a list of
independent events, used only to reason about p_one. -/
def oneSucc : List ℝ → ℝ
  | [] => 0
  | p :: ps => p * pZero ps + (1 - p) * oneSucc ps

-- ==========================================================================
-- Claim C4: the double-double formula as the spec states it
-- ==========================================================================
/-- The per-category probability exactly as claim C4 words it: 1 minus the
cdf evaluated at (9.5 - average) / (average * ratio), and 0 when the average
is absent or exactly zero. -/
def specDDProb (φ : ℝ → ℝ) (r : ℝ) (avg : Option ℝ) : ℝ :=
  match avg with
  | none => 0
  | some a => if a = 0 then 0 else 1 - φ ((9.5 - a) / (a * r))

/-- The per-category probability of claim C4 amended by the only case the
code actually treats differently: a strictly negative average makes the
derived standard deviation non-positive and the cdf argument is -999. -/
def specDDProbAdj (φ : ℝ → ℝ) (r : ℝ) (avg : Option ℝ) : ℝ :=
  match avg with
  | none => 0
  | some a =>
    if a = 0 then 0
    else if 0 < a then 1 - φ ((9.5 - a) / (a * r)) else 1 - φ (-999)

/-- The expected double-doubles value exactly as claim C4 words it: the
five per-category probabilities with their configured ratios, then
1 - P(0 successes) - P(exactly 1 success) by explicit products and sums. -/
def spec_expectedDD (φ : ℝ → ℝ) (m : String → Option ℝ) : ℝ :=
  let p1 := specDDProb φ 0.35 (m "PTS")
  let p2 := specDDProb φ 0.4 (m "REB")
  let p3 := specDDProb φ 0.45 (m "AST")
  let p4 := specDDProb φ 0.6 (m "STL")
  let p5 := specDDProb φ 0.6 (m "BLK")
  1 - (1 - p1) * (1 - p2) * (1 - p3) * (1 - p4) * (1 - p5) -
    (p1 * (1 - p2) * (1 - p3) * (1 - p4) * (1 - p5) +
     p2 * (1 - p1) * (1 - p3) * (1 - p4) * (1 - p5) +
     p3 * (1 - p1) * (1 - p2) * (1 - p4) * (1 - p5) +
     p4 * (1 - p1) * (1 - p2) * (1 - p3) * (1 - p5) +
     p5 * (1 - p1) * (1 - p2) * (1 - p3) * (1 - p4))

/-- Claim C4 amended at the negative-average case only. -/
def spec_expectedDD_adj (φ : ℝ → ℝ) (m : String → Option ℝ) : ℝ :=
  let p1 := specDDProbAdj φ 0.35 (m "PTS")
  let p2 := specDDProbAdj φ 0.4 (m "REB")
  let p3 := specDDProbAdj φ 0.45 (m "AST")
  let p4 := specDDProbAdj φ 0.6 (m "STL")
  let p5 := specDDProbAdj φ 0.6 (m "BLK")
  1 - (1 - p1) * (1 - p2) * (1 - p3) * (1 - p4) * (1 - p5) -
    (p1 * (1 - p2) * (1 - p3) * (1 - p4) * (1 - p5) +
     p2 * (1 - p1) * (1 - p3) * (1 - p4) * (1 - p5) +
     p3 * (1 - p1) * (1 - p2) * (1 - p4) * (1 - p5) +
     p4 * (1 - p1) * (1 - p2) * (1 - p3) * (1 - p5) +
     p5 * (1 - p1) * (1 - p2) * (1 - p3) * (1 - p4))

/-- Record used for the C4 counterexample: points average -1 and rebounds
average 9.5, everything else absent. -/
def c4Rec : String → Option ℝ := fun s =>
  if s = "PTS" then some (-1) else if s = "REB" then some 9.5 else none

-- ==========================================================================
-- Claims C5 and C10: bounds, monotonicity and the negative-average branch
-- ==========================================================================
/-- The combination 1 - p_zero - p_one (in recursive form) over a probability
list, used to reason uniformly about the double-double estimate. -/
def ddOf (ps : List ℝ) : ℝ := 1 - pZero ps - oneSucc ps

/-- Record with two strictly negative contributing averages (points -1,
rebounds -1, everything else absent), used by claims C5 and C10. -/
def ddNegRec : String → Option ℝ := fun s =>
  if s = "PTS" then some (-1) else if s = "REB" then some (-1) else none

/-- ddNegRec with its points average increased from -1 to 0. -/
def c5IncRec : String → Option ℝ := fun s =>
  if s = "PTS" then some 0 else if s = "REB" then some (-1) else none

-- ==========================================================================
-- players.py: the player model, injury checks and schedule filtering
-- ==========================================================================
/-- An ESPN player as the core consumes it.  The stats field sends a stats
key to the per-game average dictionary player.stats[key]["avg"]; a key whose
entry is missing or has no usable avg dictionary is modelled as none. -/
structure Player where
  name : String
  position : String
  injuryStatus : Option String
  injured : Bool
  proTeam : String
  stats : String → Option (String → Option ℝ)

/-- players.get_player_per_game_stats: the avg dictionary for the key, or
None when the player has no stats, the key is missing, or avg is missing. -/
def get_player_per_game_stats (p : Player) (stats_key : String) :
    Option (String → Option ℝ) := p.stats stats_key

/-- players.is_player_injured: OUT status or the injured flag. -/
def is_player_injured (p : Player) : Bool :=
  p.injuryStatus == some "OUT" || p.injured

/-- One NBA game from league.pro_schedule. -/
structure ProGame where
  awayProTeamId : Nat
  homeProTeamId : Nat
  gameDate : Int

/-- The parts of the ESPN League object the core reads: pro_schedule maps a
pro team id to a mapping from scoring period to the games of that period. -/
structure League where
  pro_schedule : List (Nat × (Nat → List ProGame))

/-- players._get_pro_team_id_by_name over the external espn_api constant
PRO_TEAM_MAP, passed explicitly as proMap: the first id whose name matches. -/
def pro_team_id_by_name (proMap : List (Nat × String)) (team_name : String) :
    Option Nat :=
  (proMap.find? (fun x => x.2 == team_name)).map (·.1)

/-- One entry of the schedule produced by players._build_schedule.  The raw
millisecond timestamp stands in for the day value datetime.fromtimestamp
produces; the conversion is monotone so the sort below orders the same way. -/
structure SchedEntry where
  gameDate : Int
  opponent : String
  scoring_period_id : Nat

/-- players._build_schedule: for each scoring period take the first game of
the team on that period, record date, opponent and period, sort by date
(Python sorted is stable, as is mergeSort). -/
def build_schedule (proMap : List (Nat × String)) (pro_team_id : Nat)
    (scoring_periods : List Nat) (lg : League) : List SchedEntry :=
  match (lg.pro_schedule.find? (fun x => x.1 == pro_team_id)).map (·.2) with
  | none => []
  | some team_schedule =>
    (scoring_periods.filterMap (fun period =>
      match team_schedule period with
      | [] => none
      | g :: _ =>
        let oppId := if g.awayProTeamId == pro_team_id then g.homeProTeamId
                     else g.awayProTeamId
        some { gameDate := g.gameDate,
               opponent := ((proMap.find? (fun x => x.1 == oppId)).map (·.2)).getD "Unknown",
               scoring_period_id := period })).mergeSort
      (fun x y => decide (x.gameDate ≤ y.gameDate))

/-- players.get_player_schedule: pro team id lookup, scoring periods from the
matchup schedule, then _build_schedule; empty when either lookup fails. -/
def get_player_schedule (proMap : List (Nat × String)) (p : Player)
    (matchup_id : Nat) (lg : League) : List SchedEntry :=
  match pro_team_id_by_name proMap p.proTeam with
  | none => []
  | some tid =>
    let scoring_periods := scheduleLookup matchup_id
    if scoring_periods = [] then []
    else build_schedule proMap tid scoring_periods lg

/-- players.get_players_playing_on_date: roster members that are not injured
and have a game on the given scoring period. -/
def get_players_playing_on_date (team_roster : List Player)
    (scoring_period_id : Nat) (matchup_id : Nat) (lg : League)
    (proMap : List (Nat × String)) : List Player :=
  team_roster.filter (fun p =>
    !is_player_injured p &&
      (get_player_schedule proMap p matchup_id lg).any
        (fun g => g.scoring_period_id == scoring_period_id))

-- ==========================================================================
-- matchups.py: position eligibility, lineup optimization, matchup totals
-- ==========================================================================
/-- matchups.can_fill_position. -/
def can_fill_position (player_position slot_position : String) : Bool :=
  if slot_position == "UTIL" then true
  else
    let player_positions := (player_position.splitOn ",").map (·.trim)
    if player_positions.contains slot_position then true
    else if slot_position == "G" &&
        player_positions.any (fun pos => pos == "PG" || pos == "SG") then true
    else if slot_position == "F" &&
        player_positions.any (fun pos => pos == "SF" || pos == "PF") then true
    else false

/-- The comma-separated position list of a player, stripped, as
can_fill_position computes it. -/
def posList (player_position : String) : List String :=
  (player_position.splitOn ",").map (·.trim)

/-- The eligibility rule exactly as the specification words it: a universal
slot accepts any player, an exact slot a player holding that position, and
the two flexible slots a player holding either of their two positions. -/
def eligibleSpec (player_position slot_position : String) : Prop :=
  slot_position = "UTIL" ∨
  slot_position ∈ posList player_position ∨
  (slot_position = "G" ∧
    ("PG" ∈ posList player_position ∨ "SG" ∈ posList player_position)) ∨
  (slot_position = "F" ∧
    ("SF" ∈ posList player_position ∨ "PF" ∈ posList player_position))

/-- The per-slot stats recorded by optimize_lineup for an assigned player. -/
structure LineupStats where
  pts : ℝ
  ast : ℝ
  blk : ℝ
  reb : ℝ
  stl : ℝ
  ftm : ℝ
  fta : ℝ
  tpm : ℝ
  dd : ℝ

/-- The stats dictionary optimize_lineup builds for an assigned player:
each counting stat defaults to 0 when absent, 3PM falls back to the 3PTM
key, and DD is the expected double-doubles estimate. -/
def mkLineupStats (φ : ℝ → ℝ) (m : String → Option ℝ) : LineupStats where
  pts := (m "PTS").getD 0
  ast := (m "AST").getD 0
  blk := (m "BLK").getD 0
  reb := (m "REB").getD 0
  stl := (m "STL").getD 0
  ftm := (m "FTM").getD 0
  fta := (m "FTA").getD 0
  tpm := match m "3PM" with
         | some v => v
         | none => (m "3PTM").getD 0
  dd := calculate_expected_double_doubles φ m

/-- The inner scan of optimize_lineup for one slot: walk the sorted player
list, skip used players, and assign the first eligible player that has
per-game stats; a player that is eligible but has no stats is skipped
without being marked used, exactly as in the source loop. -/
def findAssign (φ : ℝ → ℝ) (stats_key slot : String) (used : List String) :
    List (Player × ℝ) → Option (Player × LineupStats)
  | [] => none
  | (p, _) :: rest =>
    if p.name ∈ used then findAssign φ stats_key slot used rest
    else if can_fill_position p.position slot then
      match get_player_per_game_stats p stats_key with
      | some m => some (p, mkLineupStats φ m)
      | none => findAssign φ stats_key slot used rest
    else findAssign φ stats_key slot used rest

/-- The players_with_power list of optimize_lineup: available players found
in the z-score map paired with their per_game_power.  The z-score map is
modelled by the only entry optimize_lineup reads from it, per_game_power. -/
def playersWithPower (available_players : List Player)
    (player_zscores : String → Option ℝ) : List (Player × ℝ) :=
  available_players.filterMap (fun p => (player_zscores p.name).map (fun w => (p, w)))

/-- The sort of optimize_lineup: descending per_game_power, stable on ties
like the Python list sort. -/
def sortByPowerDesc (l : List (Player × ℝ)) : List (Player × ℝ) :=
  l.mergeSort (fun x y => decide (y.2 ≤ x.2))

/-- matchups.optimize_lineup: greedy assignment over the fixed slot order.
The lineup dictionary is an association list with dict-update semantics, so
of the three UTIL slots only the last written binding survives, as in the
Python dict. -/
def optimize_lineup (φ : ℝ → ℝ) (available_players : List Player)
    (player_zscores : String → Option ℝ) (stats_key : String) :
    List (String × Option (Player × LineupStats)) :=
  let sorted := sortByPowerDesc (playersWithPower available_players player_zscores)
  (LINEUP_SLOTS.foldl (fun acc slot =>
    match findAssign φ stats_key slot acc.2 sorted with
    | some (p, st) => (dictInsert acc.1 slot (some (p, st)), p.name :: acc.2)
    | none => (dictInsert acc.1 slot none, acc.2))
    (([] : List (String × Option (Player × LineupStats))), ([] : List String))).1

/-- The names of the players assigned somewhere in a lineup. -/
def assignedNames (lu : List (String × Option (Player × LineupStats))) : List String :=
  lu.filterMap (fun e => e.2.map (fun y => y.1.name))

/-- An ESPN team as the matchup projector consumes it. -/
structure Team where
  team_name : String
  roster : List Player

/-- The running totals dictionary of calculate_team_matchup_stats.  The FT%
entry only exists after the final step; before that the field holds 0. -/
structure MatchupTotals where
  pts : ℝ
  ast : ℝ
  blk : ℝ
  reb : ℝ
  stl : ℝ
  tpm : ℝ
  ftm : ℝ
  fta : ℝ
  dd : ℝ
  games_played : ℝ
  ftPct : ℝ

/-- The initial totals of calculate_team_matchup_stats. -/
def zeroTotals : MatchupTotals :=
  ⟨0, 0, 0, 0, 0, 0, 0, 0, 0, 0, 0⟩

/-- Accumulation of one lineup entry into the totals: a filled slot adds its
nine stats and counts one game played, an empty slot adds nothing. -/
def accumEntry (tot : MatchupTotals)
    (entry : String × Option (Player × LineupStats)) : MatchupTotals :=
  match entry.2 with
  | none => tot
  | some (_, st) =>
    { tot with
      pts := tot.pts + st.pts, ast := tot.ast + st.ast, blk := tot.blk + st.blk,
      reb := tot.reb + st.reb, stl := tot.stl + st.stl, tpm := tot.tpm + st.tpm,
      ftm := tot.ftm + st.ftm, fta := tot.fta + st.fta, dd := tot.dd + st.dd,
      games_played := tot.games_played + 1 }

/-- One scoring period of the loop in calculate_team_matchup_stats: a day
with no available players is skipped, otherwise the optimized lineup is
accumulated into the totals. -/
def dayStep (φ : ℝ → ℝ) (team : Team) (matchup_id : Nat) (lg : League)
    (proMap : List (Nat × String)) (player_zscores : String → Option ℝ)
    (stats_key : String) (tot : MatchupTotals) (sp_id : Nat) : MatchupTotals :=
  let available_players :=
    get_players_playing_on_date team.roster sp_id matchup_id lg proMap
  if available_players.isEmpty then tot
  else (optimize_lineup φ available_players player_zscores stats_key).foldl
    accumEntry tot

/-- matchups.calculate_team_matchup_stats: fold the days of the matchup
window, then derive FT% as makes over attempts when attempts are positive
and 0.0 otherwise. -/
def calculate_team_matchup_stats (φ : ℝ → ℝ) (team : Team) (matchup_id : Nat)
    (lg : League) (proMap : List (Nat × String))
    (player_zscores : String → Option ℝ) (stats_key : String) : MatchupTotals :=
  let totals := (scheduleLookup matchup_id).foldl
    (dayStep φ team matchup_id lg proMap player_zscores stats_key) zeroTotals
  if 0 < totals.fta then { totals with ftPct := totals.ftm / totals.fta }
  else { totals with ftPct := 0 }

/-- matchups.compare_teams: per category, strictly greater value wins, equal
values tie; the results dictionary is an append-only association list since
the category names are distinct. -/
def compare_teams (team_a_name : String) (team_a_stats : String → Option ℝ)
    (team_b_name : String) (team_b_stats : String → Option ℝ) :
    List (String × String) × Nat × Nat :=
  STAT_CATEGORIES.foldl (fun acc stat =>
    let a_val := (team_a_stats stat).getD 0
    let b_val := (team_b_stats stat).getD 0
    if b_val < a_val then (acc.1 ++ [(stat, team_a_name)], acc.2.1 + 1, acc.2.2)
    else if a_val < b_val then (acc.1 ++ [(stat, team_b_name)], acc.2.1, acc.2.2 + 1)
    else (acc.1 ++ [(stat, "TIE")], acc.2.1, acc.2.2))
    ([], 0, 0)

-- ==========================================================================
-- stats.py: z-score pipelines
-- ==========================================================================
/-- The per-category value extraction of the z-score loops: the 3PM category
falls back to the 3PTM key, every other category reads its own key. -/
def extractStatVal (m : String → Option ℝ) (stat : String) : Option ℝ :=
  if stat = "3PM" then
    match m "3PM" with
    | some v => some v
    | none => m "3PTM"
  else m stat

/-- The value a player contributes to a category inside
calculate_player_zscores: the DD category always holds the computed
double-double estimate, the others are read from the per-game averages. -/
def playerStatVal (φ : ℝ → ℝ) (m : String → Option ℝ) (stat : String) : Option ℝ :=
  if stat = "DD" then some (calculate_expected_double_doubles φ m)
  else extractStatVal m stat

/-- The raw_stats list of one category in calculate_player_zscores: the
values of the players that have per-game stats and a value for the category,
in roster order. -/
def rawStats (φ : ℝ → ℝ) (players : List Player) (stats_key stat : String) :
    List ℝ :=
  players.filterMap (fun p =>
    (get_player_per_game_stats p stats_key).bind (fun m => playerStatVal φ m stat))

/-- The stat_means entry of calculate_player_zscores: numpy mean of the
eligible values, 0 when the category has no eligible value. -/
def statMeanOf (φ : ℝ → ℝ) (players : List Player) (stats_key stat : String) : ℝ :=
  if rawStats φ players stats_key stat = [] then 0
  else listMean (rawStats φ players stats_key stat)

/-- The stat_stds entry of calculate_player_zscores: numpy population
standard deviation of the eligible values, 1 when the category has no
eligible value. -/
def statStdOf (φ : ℝ → ℝ) (players : List Player) (stats_key stat : String) : ℝ :=
  if rawStats φ players stats_key stat = [] then 1
  else popStd (rawStats φ players stats_key stat)

/-- The player_stats dictionary of calculate_player_zscores, keyed by player
name with dict-update semantics. -/
def buildPlayerStats (φ : ℝ → ℝ) (players : List Player) (stats_key : String) :
    List (String × (String → Option ℝ)) :=
  players.foldl (fun acc p =>
    match get_player_per_game_stats p stats_key with
    | none => acc
    | some m => dictInsert acc p.name (fun stat => playerStatVal φ m stat)) []

/-- The z-score record calculate_player_zscores emits per player. -/
structure PZOut where
  z : String → ℝ
  per_game_power : ℝ

/-- stats.calculate_player_zscores: per category z = (value - mean) / std
when the value is present and the std is nonzero, 0.0 otherwise, and
per_game_power is the sum of the eight category z-scores. -/
def calculate_player_zscores (φ : ℝ → ℝ) (players : List Player)
    (stats_key : String) : List (String × PZOut) :=
  (buildPlayerStats φ players stats_key).map (fun x =>
    let zf := fun stat =>
      match x.2 stat with
      | some v =>
        if statStdOf φ players stats_key stat ≠ 0 then
          (v - statMeanOf φ players stats_key stat) /
            statStdOf φ players stats_key stat
        else 0
      | none => 0
    (x.1, { z := zf, per_game_power := (STAT_CATEGORIES.map zf).sum }))

/-- The z-scores, read from the calculate_player_zscores output, of exactly
the players eligible for a category (those with per-game stats and a value
for the category), in pool order. -/
def eligibleZs (φ : ℝ → ℝ) (players : List Player) (stats_key stat : String) :
    List ℝ :=
  players.filterMap (fun p =>
    (get_player_per_game_stats p stats_key).bind (fun m =>
      (playerStatVal φ m stat).bind (fun _ =>
        (dictLookup (calculate_player_zscores φ players stats_key) p.name).map
          (·.z stat))))

/-- One entry of the player_stats input of stats.calculate_zscores: the
category values of the player (with the absent marker preserved) and the
projected avg dictionary used only to read games played. -/
structure ZPlayerIn where
  vals : String → Option ℝ
  projAvg : Option (String → Option ℝ)

/-- One entry of the calculate_zscores result. -/
structure ZOut where
  z : String → ℝ
  per_game_power : ℝ
  season_power : ℝ
  games_played : ℝ

/-- The first pass of stats.calculate_zscores: per-category z-scores from the
supplied raw_stats population (mean 0 and std 1 replacing the statistics of
an empty category), per_game_power as the sum of the eight z-scores, games
played from the projected averages with default 82; season_power is written
by the second pass and holds 0 here. -/
def zsFirstPass (player_stats : List ZPlayerIn) (raw_stats : String → List ℝ) :
    List ZOut :=
  player_stats.map (fun pin =>
    let zf := fun stat =>
      match pin.vals stat with
      | some v =>
        if (if raw_stats stat = [] then (1 : ℝ) else popStd (raw_stats stat)) ≠ 0 then
          (v - (if raw_stats stat = [] then 0 else listMean (raw_stats stat))) /
            (if raw_stats stat = [] then 1 else popStd (raw_stats stat))
        else 0
      | none => 0
    let gp := match pin.projAvg with
      | some avg => (avg "GP").getD 82
      | none => 82
    { z := zf, per_game_power := (STAT_CATEGORIES.map zf).sum,
      season_power := 0, games_played := gp })

/-- stats.calculate_zscores: first pass as above, then the baseline shift
(baseline = |min| + 1 when the minimum raw per_game_power is negative, else
0) applied to every per_game_power, and season_power = shifted power scaled
by games played over 82.  The year and stats_key parameters of the source
only shape the projected key read inside projAvg and are dropped here. -/
def calculate_zscores (player_stats : List ZPlayerIn)
    (raw_stats : String → List ℝ) : List ZOut :=
  let firstPass := zsFirstPass player_stats raw_stats
  let min_power := listMin (firstPass.map (·.per_game_power))
  let baseline := if min_power < 0 then |min_power| + 1 else 0
  firstPass.map (fun o =>
    { o with per_game_power := o.per_game_power + baseline,
             season_power := (o.per_game_power + baseline) * (o.games_played / 82) })

-- ==========================================================================
-- Claim C9: compare_teams antisymmetry
-- ==========================================================================
/-- The loop body of compare_teams, named so the fold can be reasoned about. -/
def compareStep (team_a_name : String) (team_a_stats : String → Option ℝ)
    (team_b_name : String) (team_b_stats : String → Option ℝ)
    (acc : List (String × String) × Nat × Nat) (stat : String) :
    List (String × String) × Nat × Nat :=
  let a_val := (team_a_stats stat).getD 0
  let b_val := (team_b_stats stat).getD 0
  if b_val < a_val then (acc.1 ++ [(stat, team_a_name)], acc.2.1 + 1, acc.2.2)
  else if a_val < b_val then (acc.1 ++ [(stat, team_b_name)], acc.2.1, acc.2.2 + 1)
  else (acc.1 ++ [(stat, "TIE")], acc.2.1, acc.2.2)

/-- One slot of the greedy loop of optimize_lineup, named for the proofs. -/
def lineupStep (φ : ℝ → ℝ) (stats_key : String) (sorted : List (Player × ℝ))
    (acc : List (String × Option (Player × LineupStats)) × List String)
    (slot : String) :
    List (String × Option (Player × LineupStats)) × List String :=
  match findAssign φ stats_key slot acc.2 sorted with
  | some (p, st) => (dictInsert acc.1 slot (some (p, st)), p.name :: acc.2)
  | none => (dictInsert acc.1 slot none, acc.2)

/-- The invariant carried through the greedy fold: distinct assigned names,
assigned names recorded as used, and every assigned entry eligible, drawn
from the sorted pool, and carrying the stats of its player. -/
def lineupInv (φ : ℝ → ℝ) (stats_key : String) (sorted : List (Player × ℝ))
    (acc : List (String × Option (Player × LineupStats)) × List String) : Prop :=
  (assignedNames acc.1).Nodup ∧
  (∀ n ∈ assignedNames acc.1, n ∈ acc.2) ∧
  (∀ x ∈ acc.1, ∀ p st, x.2 = some (p, st) →
    can_fill_position p.position x.1 = true ∧ p ∈ sorted.map Prod.fst ∧
      ∃ m, get_player_per_game_stats p stats_key = some m ∧
        st = mkLineupStats φ m)

/-- The per-player record calculate_player_zscores builds from a category
value function. -/
def pzOutOf (φ : ℝ → ℝ) (players : List Player) (stats_key : String)
    (f : String → Option ℝ) : PZOut :=
  let zf := fun stat =>
    match f stat with
    | some v =>
      if statStdOf φ players stats_key stat ≠ 0 then
        (v - statMeanOf φ players stats_key stat) /
          statStdOf φ players stats_key stat
      else 0
    | none => 0
  { z := zf, per_game_power := (STAT_CATEGORIES.map zf).sum }

/-- A one-player pool with a single points value, used by C7 and C8. -/
def soloPlayer : Player where
  name := "Solo"
  position := "PG"
  injuryStatus := none
  injured := false
  proTeam := "LAL"
  stats := fun _ => some (fun s => if s = "PTS" then some 10 else none)

/-- A two-player pool with distinct points values 0 and 2, used by C8. -/
def duoA : Player where
  name := "Abe"
  position := "PG"
  injuryStatus := none
  injured := false
  proTeam := "LAL"
  stats := fun _ => some (fun s => if s = "PTS" then some 0 else none)

/-- Second member of the two-player pool. -/
def duoB : Player where
  name := "Bea"
  position := "SG"
  injuryStatus := none
  injured := false
  proTeam := "BOS"
  stats := fun _ => some (fun s => if s = "PTS" then some 2 else none)

-- ==========================================================================
-- Theorems
-- ==========================================================================

theorem phiClamp_mono : Monotone phiClamp := by
  intro a b hab
  unfold phiClamp
  have h1 : (a + 1000) / 2000 ≤ (b + 1000) / 2000 := by linarith
  exact max_le_max le_rfl (min_le_min le_rfl h1)

theorem phiClamp_bounds (x : ℝ) : 0 ≤ phiClamp x ∧ phiClamp x ≤ 1 := by
  constructor
  · exact le_max_left _ _
  · exact max_le (by norm_num) (min_le_left _ _)

theorem phiClamp_neg999 : phiClamp (-999) = 1 / 2000 := by
  unfold phiClamp
  norm_num

theorem phiClamp_neg30 : phiClamp (-30) = 97 / 200 := by
  unfold phiClamp
  norm_num

theorem phiClamp_zero : phiClamp 0 = 1 / 2 := by
  unfold phiClamp
  norm_num

-- ==========================================================================
-- Unfoldings and bounds for the double-double combination formula
-- ==========================================================================
theorem pZero_cons (p : ℝ) (ps : List ℝ) : pZero (p :: ps) = (1 - p) * pZero ps := by
  simp [pZero]

theorem pZero_five (a b c d e : ℝ) :
    pZero [a, b, c, d, e] = (1 - a) * (1 - b) * (1 - c) * (1 - d) * (1 - e) := by
  simp [pZero]
  ring

theorem pOne_five (a b c d e : ℝ) :
    pOne [a, b, c, d, e] =
      a * (1 - b) * (1 - c) * (1 - d) * (1 - e) +
      b * (1 - a) * (1 - c) * (1 - d) * (1 - e) +
      c * (1 - a) * (1 - b) * (1 - d) * (1 - e) +
      d * (1 - a) * (1 - b) * (1 - c) * (1 - e) +
      e * (1 - a) * (1 - b) * (1 - c) * (1 - d) := by
  have h5 : List.range 5 = [0, 1, 2, 3, 4] := rfl
  simp [pOne, h5, List.filter]
  ring

theorem pOne_eq_oneSucc_five (a b c d e : ℝ) :
    pOne [a, b, c, d, e] = oneSucc [a, b, c, d, e] := by
  rw [pOne_five]
  simp [oneSucc, pZero]
  ring

theorem pZero_nonneg (ps : List ℝ) (h : ∀ p ∈ ps, p ≤ 1) : 0 ≤ pZero ps := by
  induction ps with
  | nil => simp [pZero]
  | cons p t ih =>
    rw [pZero_cons]
    have hp := h p (List.mem_cons_self p t)
    have ht : 0 ≤ pZero t := ih (fun q hq => h q (List.mem_cons_of_mem p hq))
    have : 0 ≤ 1 - p := by linarith
    positivity

theorem oneSucc_nonneg (ps : List ℝ) (h : ∀ p ∈ ps, 0 ≤ p ∧ p ≤ 1) :
    0 ≤ oneSucc ps := by
  induction ps with
  | nil => simp [oneSucc]
  | cons p t ih =>
    have hp := h p (List.mem_cons_self p t)
    have ht : 0 ≤ oneSucc t := ih (fun q hq => h q (List.mem_cons_of_mem p hq))
    have hz : 0 ≤ pZero t := pZero_nonneg t (fun q hq => (h q (List.mem_cons_of_mem p hq)).2)
    have h1p : 0 ≤ 1 - p := by linarith [hp.2]
    simp only [oneSucc]
    have := mul_nonneg hp.1 hz
    have := mul_nonneg h1p ht
    linarith

theorem pZero_add_oneSucc_le_one (ps : List ℝ) (h : ∀ p ∈ ps, 0 ≤ p ∧ p ≤ 1) :
    pZero ps + oneSucc ps ≤ 1 := by
  induction ps with
  | nil => simp [pZero, oneSucc]
  | cons p t ih =>
    have hp := h p (List.mem_cons_self p t)
    have ht := ih (fun q hq => h q (List.mem_cons_of_mem p hq))
    have hs : 0 ≤ oneSucc t :=
      oneSucc_nonneg t (fun q hq => h q (List.mem_cons_of_mem p hq))
    have h1p : 0 ≤ 1 - p := by linarith [hp.2]
    simp only [oneSucc, pZero_cons]
    nlinarith [hp.1, hp.2]

theorem stdDevRatioOf_PTS : stdDevRatioOf "PTS" = 0.35 := by
  simp [stdDevRatioOf, STD_DEV_RATIOS]

theorem stdDevRatioOf_REB : stdDevRatioOf "REB" = 0.4 := by
  simp [stdDevRatioOf, STD_DEV_RATIOS]

theorem stdDevRatioOf_AST : stdDevRatioOf "AST" = 0.45 := by
  simp [stdDevRatioOf, STD_DEV_RATIOS]

theorem stdDevRatioOf_STL : stdDevRatioOf "STL" = 0.6 := by
  simp [stdDevRatioOf, STD_DEV_RATIOS]

theorem stdDevRatioOf_BLK : stdDevRatioOf "BLK" = 0.6 := by
  simp [stdDevRatioOf, STD_DEV_RATIOS]

/-- The double-double estimate written over the explicit five-element
probability list, with p_one in recursive form. -/
theorem calcDD_eq (φ : ℝ → ℝ) (m : String → Option ℝ) :
    calculate_expected_double_doubles φ m =
      1 - pZero [ddProb φ 0.35 (m "PTS"), ddProb φ 0.4 (m "REB"),
                 ddProb φ 0.45 (m "AST"), ddProb φ 0.6 (m "STL"),
                 ddProb φ 0.6 (m "BLK")]
        - oneSucc [ddProb φ 0.35 (m "PTS"), ddProb φ 0.4 (m "REB"),
                   ddProb φ 0.45 (m "AST"), ddProb φ 0.6 (m "STL"),
                   ddProb φ 0.6 (m "BLK")] := by
  unfold calculate_expected_double_doubles
  simp only [ddStats, List.map, stdDevRatioOf_PTS, stdDevRatioOf_REB,
    stdDevRatioOf_AST, stdDevRatioOf_STL, stdDevRatioOf_BLK]
  rw [pOne_eq_oneSucc_five]

theorem ddProb_bounds (φ : ℝ → ℝ) (hb : ∀ x, 0 ≤ φ x ∧ φ x ≤ 1)
    (r : ℝ) (av : Option ℝ) : 0 ≤ ddProb φ r av ∧ ddProb φ r av ≤ 1 := by
  cases av with
  | none => simp [ddProb]
  | some a =>
    by_cases ha : a = 0
    · simp [ddProb, ha]
    · simp only [ddProb, if_neg ha]
      constructor
      · linarith [(hb (if 0 < a * r then (9.5 - a) / (a * r) else -999)).2]
      · linarith [(hb (if 0 < a * r then (9.5 - a) / (a * r) else -999)).1]

theorem ddProb_eq_specAdj (φ : ℝ → ℝ) (r : ℝ) (hr : 0 < r) (av : Option ℝ) :
    ddProb φ r av = specDDProbAdj φ r av := by
  cases av with
  | none => rfl
  | some a =>
    by_cases ha : a = 0
    · simp [ddProb, specDDProbAdj, ha]
    · simp only [ddProb, specDDProbAdj, if_neg ha]
      by_cases hpos : 0 < a
      · rw [if_pos (mul_pos hpos hr), if_pos hpos]
      · have ha' : a < 0 := lt_of_le_of_ne (not_lt.mp hpos) (by simpa using ha)
        have hnp : ¬ 0 < a * r := by nlinarith
        rw [if_neg hnp, if_neg hpos]

/-- C4: the claim formula and the code disagree on a record with a strictly
negative points average: the code sends the cdf argument to -999 while the
claim formula evaluates it at (9.5 - avg)/(avg * ratio) = -30. -/
theorem c4_counterexample :
    calculate_expected_double_doubles phiClamp c4Rec = 1999 / 4000 ∧
    spec_expectedDD phiClamp c4Rec = 103 / 400 ∧
    calculate_expected_double_doubles phiClamp c4Rec ≠
      spec_expectedDD phiClamp c4Rec := by
  have hPTS : c4Rec "PTS" = some (-1) := by simp [c4Rec]
  have hREB : c4Rec "REB" = some 9.5 := by simp [c4Rec]
  have hAST : c4Rec "AST" = none := by simp [c4Rec]
  have hSTL : c4Rec "STL" = none := by simp [c4Rec]
  have hBLK : c4Rec "BLK" = none := by simp [c4Rec]
  have hp1 : ddProb phiClamp 0.35 (c4Rec "PTS") = 1999 / 2000 := by
    rw [hPTS]
    simp only [ddProb]
    rw [if_neg (by norm_num), if_neg (by norm_num), phiClamp_neg999]
    norm_num
  have hp2 : ddProb phiClamp 0.4 (c4Rec "REB") = 1 / 2 := by
    rw [hREB]
    simp only [ddProb]
    rw [if_neg (by norm_num), if_pos (by norm_num)]
    norm_num [phiClamp_zero]
  have hs1 : specDDProb phiClamp 0.35 (c4Rec "PTS") = 103 / 200 := by
    rw [hPTS]
    simp only [specDDProb]
    rw [if_neg (by norm_num)]
    have : ((9.5 : ℝ) - -1) / (-1 * 0.35) = -30 := by norm_num
    rw [this, phiClamp_neg30]
    norm_num
  have hs2 : specDDProb phiClamp 0.4 (c4Rec "REB") = 1 / 2 := by
    rw [hREB]
    simp only [specDDProb]
    rw [if_neg (by norm_num)]
    have : ((9.5 : ℝ) - 9.5) / (9.5 * 0.4) = 0 := by norm_num
    rw [this, phiClamp_zero]
    norm_num
  have hc : calculate_expected_double_doubles phiClamp c4Rec = 1999 / 4000 := by
    rw [calcDD_eq, hAST, hSTL, hBLK, hp1, hp2]
    norm_num [ddProb, pZero_five, oneSucc, pZero]
  have hspec : spec_expectedDD phiClamp c4Rec = 103 / 400 := by
    simp only [spec_expectedDD]
    rw [hs1, hs2, hAST, hSTL, hBLK]
    norm_num [specDDProb]
  refine ⟨hc, hspec, ?_⟩
  rw [hc, hspec]
  norm_num

/-- C4 (amended): calculate_expected_double_doubles computes, for each of the
five contributing categories, the probability 1 - Φ((9.5 - avg)/(avg·ratio))
when the average is positive, 0 when the average is absent or exactly zero,
and 1 - Φ(-999) when the average is negative, and combines them as
1 - P(0 successes) - P(exactly 1 success) with P(0) the product of the five
failure probabilities and P(1) the sum over categories of the success
probability times the product of the other failure probabilities. -/
theorem c4_dd_formula (φ : ℝ → ℝ) (m : String → Option ℝ) :
    calculate_expected_double_doubles φ m = spec_expectedDD_adj φ m := by
  rw [calcDD_eq]
  rw [ddProb_eq_specAdj φ 0.35 (by norm_num) (m "PTS"),
      ddProb_eq_specAdj φ 0.4 (by norm_num) (m "REB"),
      ddProb_eq_specAdj φ 0.45 (by norm_num) (m "AST"),
      ddProb_eq_specAdj φ 0.6 (by norm_num) (m "STL"),
      ddProb_eq_specAdj φ 0.6 (by norm_num) (m "BLK")]
  rw [pZero_five]
  simp only [oneSucc, pZero, List.map, List.prod_cons, List.prod_nil,
    spec_expectedDD_adj]
  ring

theorem calcDD_ddOf (φ : ℝ → ℝ) (m : String → Option ℝ) :
    calculate_expected_double_doubles φ m =
      ddOf [ddProb φ 0.35 (m "PTS"), ddProb φ 0.4 (m "REB"),
            ddProb φ 0.45 (m "AST"), ddProb φ 0.6 (m "STL"),
            ddProb φ 0.6 (m "BLK")] := calcDD_eq φ m

theorem ddOf_cons (p : ℝ) (t : List ℝ) :
    ddOf (p :: t) = 1 - pZero t - (1 - p) * oneSucc t := by
  simp only [ddOf, oneSucc, pZero_cons]
  ring

theorem ddOf_bounds (ps : List ℝ) (h : ∀ p ∈ ps, 0 ≤ p ∧ p ≤ 1) :
    0 ≤ ddOf ps ∧ ddOf ps ≤ 1 := by
  have h1 := pZero_add_oneSucc_le_one ps h
  have h2 := pZero_nonneg ps (fun p hp => (h p hp).2)
  have h3 := oneSucc_nonneg ps h
  unfold ddOf
  constructor <;> linarith

theorem ddOf_head_mono (p p' : ℝ) (t : List ℝ) (hpp : p ≤ p')
    (ht : ∀ x ∈ t, 0 ≤ x ∧ x ≤ 1) :
    ddOf (p :: t) ≤ ddOf (p' :: t) := by
  rw [ddOf_cons, ddOf_cons]
  have hs : 0 ≤ oneSucc t := oneSucc_nonneg t ht
  nlinarith

theorem ddOf_rot2 (a b c d e : ℝ) :
    ddOf [b, a, c, d, e] = ddOf [a, b, c, d, e] := by
  simp only [ddOf, oneSucc, pZero]
  simp
  ring

theorem ddOf_rot3 (a b c d e : ℝ) :
    ddOf [c, a, b, d, e] = ddOf [a, b, c, d, e] := by
  simp only [ddOf, oneSucc, pZero]
  simp
  ring

theorem ddOf_rot4 (a b c d e : ℝ) :
    ddOf [d, a, b, c, e] = ddOf [a, b, c, d, e] := by
  simp only [ddOf, oneSucc, pZero]
  simp
  ring

theorem ddOf_rot5 (a b c d e : ℝ) :
    ddOf [e, a, b, c, d] = ddOf [a, b, c, d, e] := by
  simp only [ddOf, oneSucc, pZero]
  simp
  ring

theorem calcDD_bounds (φ : ℝ → ℝ) (hb : ∀ x, 0 ≤ φ x ∧ φ x ≤ 1)
    (m : String → Option ℝ) :
    0 ≤ calculate_expected_double_doubles φ m ∧
      calculate_expected_double_doubles φ m ≤ 1 := by
  rw [calcDD_ddOf]
  apply ddOf_bounds
  intro p hp
  simp only [List.mem_cons, List.not_mem_nil, or_false] at hp
  rcases hp with rfl | rfl | rfl | rfl | rfl <;> exact ddProb_bounds φ hb _ _

theorem ddProb_mono (φ : ℝ → ℝ) (hb : ∀ x, 0 ≤ φ x ∧ φ x ≤ 1)
    (hm : Monotone φ) (r : ℝ) (hr : 0 < r) (a a' : ℝ)
    (h0 : 0 ≤ a) (haa : a ≤ a') :
    ddProb φ r (some a) ≤ ddProb φ r (some a') := by
  by_cases ha : a = 0
  · have : ddProb φ r (some a) = 0 := by simp [ddProb, ha]
    rw [this]
    exact (ddProb_bounds φ hb r (some a')).1
  · have hap : 0 < a := lt_of_le_of_ne h0 (Ne.symm ha)
    have hap' : 0 < a' := lt_of_lt_of_le hap haa
    have ha' : a' ≠ 0 := ne_of_gt hap'
    simp only [ddProb, if_neg ha, if_neg ha']
    rw [if_pos (mul_pos hap hr), if_pos (mul_pos hap' hr)]
    have hz : (9.5 - a') / (a' * r) ≤ (9.5 - a) / (a * r) := by
      rw [div_le_div_iff₀ (mul_pos hap' hr) (mul_pos hap hr)]
      nlinarith
    have := hm hz
    linarith

theorem ddProb_neg (φ : ℝ → ℝ) (r a : ℝ) (hr : 0 < r) (ha : a < 0) :
    ddProb φ r (some a) = 1 - φ (-999) := by
  have hne : a ≠ 0 := ne_of_lt ha
  have hnp : ¬ 0 < a * r := by nlinarith
  simp only [ddProb, if_neg hne, if_neg hnp]

/-- C5 counterexample: increasing the points average of ddNegRec from -1 to 0
(record c5IncRec) strictly decreases the expected double-doubles value, so the
claimed monotonicity fails on records with negative averages.  phiClamp is an
admissible stand-in for the normal cdf here: it is monotone, valued in the
unit interval, and has phiClamp (-999) < 1, all of which hold of the true
normal cdf as well. -/
theorem c5_counterexample :
    calculate_expected_double_doubles phiClamp ddNegRec = (1999 / 2000) ^ 2 ∧
    calculate_expected_double_doubles phiClamp c5IncRec = 0 ∧
    calculate_expected_double_doubles phiClamp c5IncRec <
      calculate_expected_double_doubles phiClamp ddNegRec := by
  have h1 : calculate_expected_double_doubles phiClamp ddNegRec = (1999 / 2000) ^ 2 := by
    rw [calcDD_ddOf]
    have e1 : ddNegRec "PTS" = some (-1) := by simp [ddNegRec]
    have e2 : ddNegRec "REB" = some (-1) := by simp [ddNegRec]
    have e3 : ddNegRec "AST" = none := by simp [ddNegRec]
    have e4 : ddNegRec "STL" = none := by simp [ddNegRec]
    have e5 : ddNegRec "BLK" = none := by simp [ddNegRec]
    rw [e1, e2, e3, e4, e5,
      ddProb_neg phiClamp 0.35 (-1) (by norm_num) (by norm_num),
      ddProb_neg phiClamp 0.4 (-1) (by norm_num) (by norm_num),
      phiClamp_neg999]
    norm_num [ddOf, oneSucc, pZero, ddProb]
  have h2 : calculate_expected_double_doubles phiClamp c5IncRec = 0 := by
    rw [calcDD_ddOf]
    have e1 : c5IncRec "PTS" = some 0 := by simp [c5IncRec]
    have e2 : c5IncRec "REB" = some (-1) := by simp [c5IncRec]
    have e3 : c5IncRec "AST" = none := by simp [c5IncRec]
    have e4 : c5IncRec "STL" = none := by simp [c5IncRec]
    have e5 : c5IncRec "BLK" = none := by simp [c5IncRec]
    rw [e1, e2, e3, e4, e5,
      ddProb_neg phiClamp 0.4 (-1) (by norm_num) (by norm_num),
      phiClamp_neg999]
    norm_num [ddOf, oneSucc, pZero, ddProb]
  refine ⟨h1, h2, ?_⟩
  rw [h1, h2]
  positivity

theorem ddOf_mono_at2 (p x x' c d e : ℝ) (hxx : x ≤ x')
    (hp : 0 ≤ p ∧ p ≤ 1) (hc : 0 ≤ c ∧ c ≤ 1) (hd : 0 ≤ d ∧ d ≤ 1)
    (he : 0 ≤ e ∧ e ≤ 1) :
    ddOf [p, x, c, d, e] ≤ ddOf [p, x', c, d, e] := by
  rw [ddOf_rot2 x p c d e, ddOf_rot2 x' p c d e]
  apply ddOf_head_mono _ _ _ hxx
  intro y hy
  simp only [List.mem_cons, List.not_mem_nil, or_false] at hy
  rcases hy with rfl | rfl | rfl | rfl <;> assumption

theorem ddOf_mono_at3 (p q x x' d e : ℝ) (hxx : x ≤ x')
    (hp : 0 ≤ p ∧ p ≤ 1) (hq : 0 ≤ q ∧ q ≤ 1) (hd : 0 ≤ d ∧ d ≤ 1)
    (he : 0 ≤ e ∧ e ≤ 1) :
    ddOf [p, q, x, d, e] ≤ ddOf [p, q, x', d, e] := by
  rw [← ddOf_rot3 p q x d e, ← ddOf_rot3 p q x' d e]
  apply ddOf_head_mono _ _ _ hxx
  intro y hy
  simp only [List.mem_cons, List.not_mem_nil, or_false] at hy
  rcases hy with rfl | rfl | rfl | rfl <;> assumption

theorem ddOf_mono_at4 (p q r x x' e : ℝ) (hxx : x ≤ x')
    (hp : 0 ≤ p ∧ p ≤ 1) (hq : 0 ≤ q ∧ q ≤ 1) (hr : 0 ≤ r ∧ r ≤ 1)
    (he : 0 ≤ e ∧ e ≤ 1) :
    ddOf [p, q, r, x, e] ≤ ddOf [p, q, r, x', e] := by
  rw [← ddOf_rot4 p q r x e, ← ddOf_rot4 p q r x' e]
  apply ddOf_head_mono _ _ _ hxx
  intro y hy
  simp only [List.mem_cons, List.not_mem_nil, or_false] at hy
  rcases hy with rfl | rfl | rfl | rfl <;> assumption

theorem ddOf_mono_at5 (p q r s x x' : ℝ) (hxx : x ≤ x')
    (hp : 0 ≤ p ∧ p ≤ 1) (hq : 0 ≤ q ∧ q ≤ 1) (hr : 0 ≤ r ∧ r ≤ 1)
    (hs : 0 ≤ s ∧ s ≤ 1) :
    ddOf [p, q, r, s, x] ≤ ddOf [p, q, r, s, x'] := by
  rw [← ddOf_rot5 p q r s x, ← ddOf_rot5 p q r s x']
  apply ddOf_head_mono _ _ _ hxx
  intro y hy
  simp only [List.mem_cons, List.not_mem_nil, or_false] at hy
  rcases hy with rfl | rfl | rfl | rfl <;> assumption

/-- C5 (amended): for every normal-cdf stand-in that is monotone and valued in
the unit interval, the expected double-doubles value always lies in the unit
interval, and it is monotone non-decreasing in each contributing category
average as long as the average is increased within the non-negative reals
(for strictly negative averages the -999 branch of the code breaks
monotonicity, see the counterexample). -/
theorem c5_dd_monotone (φ : ℝ → ℝ)
    (hb : ∀ x, 0 ≤ φ x ∧ φ x ≤ 1) (hm : Monotone φ)
    (m : String → Option ℝ) (s : String) (hs : s ∈ ddStats)
    (a a' : ℝ) (h0 : 0 ≤ a) (haa : a ≤ a') :
    (0 ≤ calculate_expected_double_doubles φ m ∧
        calculate_expected_double_doubles φ m ≤ 1) ∧
      calculate_expected_double_doubles φ (fun k => if k = s then some a else m k) ≤
        calculate_expected_double_doubles φ (fun k => if k = s then some a' else m k) := by
  refine ⟨calcDD_bounds φ hb m, ?_⟩
  have hPTS : ∀ b : ℝ, 0 ≤ ddProb φ b (m "PTS") ∧ ddProb φ b (m "PTS") ≤ 1 :=
    fun b => ddProb_bounds φ hb b _
  have hREB : ∀ b : ℝ, 0 ≤ ddProb φ b (m "REB") ∧ ddProb φ b (m "REB") ≤ 1 :=
    fun b => ddProb_bounds φ hb b _
  have hAST : ∀ b : ℝ, 0 ≤ ddProb φ b (m "AST") ∧ ddProb φ b (m "AST") ≤ 1 :=
    fun b => ddProb_bounds φ hb b _
  have hSTL : ∀ b : ℝ, 0 ≤ ddProb φ b (m "STL") ∧ ddProb φ b (m "STL") ≤ 1 :=
    fun b => ddProb_bounds φ hb b _
  have hBLK : ∀ b : ℝ, 0 ≤ ddProb φ b (m "BLK") ∧ ddProb φ b (m "BLK") ≤ 1 :=
    fun b => ddProb_bounds φ hb b _
  simp only [ddStats, List.mem_cons, List.not_mem_nil, or_false] at hs
  rcases hs with rfl | rfl | rfl | rfl | rfl
  · rw [calcDD_ddOf, calcDD_ddOf]
    simp only [reduceIte, String.reduceEq]
    apply ddOf_head_mono _ _ _ (ddProb_mono φ hb hm 0.35 (by norm_num) a a' h0 haa)
    intro x hx
    simp only [List.mem_cons, List.not_mem_nil, or_false] at hx
    rcases hx with rfl | rfl | rfl | rfl <;>
      first
        | exact hREB 0.4
        | exact hAST 0.45
        | exact hSTL 0.6
        | exact hBLK 0.6
  · rw [calcDD_ddOf, calcDD_ddOf]
    simp only [reduceIte, String.reduceEq]
    apply ddOf_mono_at2 _ _ _ _ _ _
      (ddProb_mono φ hb hm 0.4 (by norm_num) a a' h0 haa)
      (hPTS 0.35) (hAST 0.45) (hSTL 0.6) (hBLK 0.6)
  · rw [calcDD_ddOf, calcDD_ddOf]
    simp only [reduceIte, String.reduceEq]
    apply ddOf_mono_at3 _ _ _ _ _ _
      (ddProb_mono φ hb hm 0.45 (by norm_num) a a' h0 haa)
      (hPTS 0.35) (hREB 0.4) (hSTL 0.6) (hBLK 0.6)
  · rw [calcDD_ddOf, calcDD_ddOf]
    simp only [reduceIte, String.reduceEq]
    apply ddOf_mono_at4 _ _ _ _ _ _
      (ddProb_mono φ hb hm 0.6 (by norm_num) a a' h0 haa)
      (hPTS 0.35) (hREB 0.4) (hAST 0.45) (hBLK 0.6)
  · rw [calcDD_ddOf, calcDD_ddOf]
    simp only [reduceIte, String.reduceEq]
    apply ddOf_mono_at5 _ _ _ _ _ _
      (ddProb_mono φ hb hm 0.6 (by norm_num) a a' h0 haa)
      (hPTS 0.35) (hREB 0.4) (hAST 0.45) (hSTL 0.6)

/-- Witness for C5: the amended monotonicity theorem applied at the concrete
cdf stand-in phiClamp, the empty record, category PTS and averages 0 ≤ 1. -/
theorem c5_dd_monotone_witness :
    ("PTS" ∈ ddStats ∧ (0 : ℝ) ≤ 0 ∧ (0 : ℝ) ≤ 1) ∧
    (0 ≤ calculate_expected_double_doubles phiClamp (fun _ => none) ∧
        calculate_expected_double_doubles phiClamp (fun _ => none) ≤ 1) ∧
      calculate_expected_double_doubles phiClamp
          (fun k => if k = "PTS" then some 0 else none) ≤
        calculate_expected_double_doubles phiClamp
          (fun k => if k = "PTS" then some 1 else none) :=
  ⟨⟨by simp [ddStats], le_refl 0, zero_le_one⟩,
    c5_dd_monotone phiClamp phiClamp_bounds phiClamp_mono (fun _ => none)
      "PTS" (by simp [ddStats]) 0 1 (le_refl 0) zero_le_one⟩

/-- C10: when a contributing category average is strictly negative the derived
standard deviation is non-positive, the cdf argument is forced to -999, and
the success probability used is 1 - Φ(-999); on the record with points and
rebounds averages both -1 the expected double-doubles value is exactly
(1 - Φ(-999))², which is at least 1 - 2·Φ(-999) and hence approximately 1
for a cdf with Φ(-999) close to 0. -/
theorem c10_negative_average (φ : ℝ → ℝ) (r a : ℝ) (hr : 0 < r) (ha : a < 0) :
    ddProb φ r (some a) = 1 - φ (-999) ∧
    calculate_expected_double_doubles φ ddNegRec = (1 - φ (-999)) ^ 2 ∧
    1 - 2 * φ (-999) ≤ calculate_expected_double_doubles φ ddNegRec := by
  have h2 : calculate_expected_double_doubles φ ddNegRec = (1 - φ (-999)) ^ 2 := by
    rw [calcDD_ddOf]
    have e1 : ddNegRec "PTS" = some (-1) := by simp [ddNegRec]
    have e2 : ddNegRec "REB" = some (-1) := by simp [ddNegRec]
    have e3 : ddNegRec "AST" = none := by simp [ddNegRec]
    have e4 : ddNegRec "STL" = none := by simp [ddNegRec]
    have e5 : ddNegRec "BLK" = none := by simp [ddNegRec]
    rw [e1, e2, e3, e4, e5,
      ddProb_neg φ 0.35 (-1) (by norm_num) (by norm_num),
      ddProb_neg φ 0.4 (-1) (by norm_num) (by norm_num)]
    simp [ddOf, oneSucc, pZero, ddProb]
    ring
  refine ⟨ddProb_neg φ r a hr ha, h2, ?_⟩
  rw [h2]
  nlinarith [sq_nonneg (φ (-999))]

/-- Witness for C10: the theorem applied at phiClamp, ratio 1 and average -1;
with phiClamp (-999) = 1/2000 the resulting value is (1999/2000)². -/
theorem c10_negative_average_witness :
    ((0 : ℝ) < 1 ∧ (-1 : ℝ) < 0) ∧
    ddProb phiClamp 1 (some (-1)) = 1 - phiClamp (-999) ∧
    calculate_expected_double_doubles phiClamp ddNegRec = (1 - phiClamp (-999)) ^ 2 ∧
    1 - 2 * phiClamp (-999) ≤ calculate_expected_double_doubles phiClamp ddNegRec :=
  ⟨⟨zero_lt_one, by norm_num⟩,
    c10_negative_average phiClamp 1 (-1) zero_lt_one (by norm_num)⟩

-- ==========================================================================
-- Numeric lemmas for means, standard deviations and minima
-- ==========================================================================
theorem sum_map_affine (l : List ℝ) (c s : ℝ) :
    (l.map (fun v => (v - c) / s)).sum = (l.sum - l.length * c) / s := by
  induction l with
  | nil => simp
  | cons h t ih =>
    simp only [List.map_cons, List.sum_cons, ih, List.length_cons]
    push_cast
    ring

theorem sum_map_sq_affine (l : List ℝ) (c s : ℝ) :
    (l.map (fun v => ((v - c) / s) ^ 2)).sum =
      (l.map (fun v => (v - c) ^ 2)).sum / s ^ 2 := by
  induction l with
  | nil => simp
  | cons h t ih =>
    simp only [List.map_cons, List.sum_cons, ih]
    ring

theorem listMean_normalize (l : List ℝ) (hne : l ≠ []) (s : ℝ) :
    listMean (l.map (fun v => (v - listMean l) / s)) = 0 := by
  have hn : (l.length : ℝ) ≠ 0 := by
    have := List.length_pos.mpr hne
    positivity
  unfold listMean
  rw [List.length_map, sum_map_affine]
  have h1 : l.sum - (l.length : ℝ) * (l.sum / l.length) = 0 := by
    field_simp
  rw [h1]
  simp

theorem popVar_nonneg (l : List ℝ) : 0 ≤ popVar l := by
  unfold popVar
  apply div_nonneg _ (Nat.cast_nonneg _)
  apply List.sum_nonneg
  intro x hx
  simp only [List.mem_map] at hx
  obtain ⟨v, _, rfl⟩ := hx
  positivity

theorem popStd_sq (l : List ℝ) : popStd l ^ 2 = popVar l :=
  Real.sq_sqrt (popVar_nonneg l)

theorem popVar_normalize (l : List ℝ) (hne : l ≠ []) (hsd : popStd l ≠ 0) :
    popVar (l.map (fun v => (v - listMean l) / popStd l)) = 1 := by
  have hmean0 := listMean_normalize l hne (popStd l)
  unfold popVar
  rw [hmean0]
  simp only [sub_zero, List.length_map, List.map_map, Function.comp_def]
  rw [sum_map_sq_affine, div_right_comm]
  have hA : ((l.map (fun v => (v - listMean l) ^ 2)).sum / l.length) = popVar l := rfl
  rw [hA, ← popStd_sq]
  exact div_self (pow_ne_zero 2 hsd)

theorem popStd_normalize (l : List ℝ) (hne : l ≠ []) (hsd : popStd l ≠ 0) :
    popStd (l.map (fun v => (v - listMean l) / popStd l)) = 1 := by
  have h := popVar_normalize l hne hsd
  show Real.sqrt (popVar (l.map (fun v => (v - listMean l) / popStd l))) = 1
  rw [h]
  exact Real.sqrt_one

theorem foldl_min_map_add (b : ℝ) :
    ∀ (t : List ℝ) (a : ℝ),
      (t.map (fun x => x + b)).foldl min (a + b) = t.foldl min a + b := by
  intro t
  induction t with
  | nil => intro a; rfl
  | cons x r ih =>
    intro a
    simp only [List.map_cons, List.foldl_cons]
    rw [min_add_add_right, ih]

theorem listMin_map_add (l : List ℝ) (b : ℝ) (hne : l ≠ []) :
    listMin (l.map (fun x => x + b)) = listMin l + b := by
  cases l with
  | nil => exact absurd rfl hne
  | cons h t =>
    simp only [List.map_cons, listMin]
    exact foldl_min_map_add b t h

-- ==========================================================================
-- Claim C3: the baseline shift of calculate_zscores
-- ==========================================================================
/-- C3 (amended): for every non-empty evaluated pool, after the two-pass
baseline adjustment of calculate_zscores the minimum shifted per_game_power
is non-negative, and it is exactly 0 precisely when the minimum raw
per_game_power is exactly 0 (the strict positivity the claim states holds
whenever the raw minimum is nonzero, in particular whenever it is negative,
but not when the raw minimum is exactly 0, where baseline = 0). -/
theorem c3_baseline_shift (player_stats : List ZPlayerIn)
    (raw_stats : String → List ℝ) (hne : player_stats ≠ []) :
    0 ≤ listMin ((calculate_zscores player_stats raw_stats).map (·.per_game_power)) ∧
    (listMin ((calculate_zscores player_stats raw_stats).map (·.per_game_power)) = 0 ↔
      listMin ((zsFirstPass player_stats raw_stats).map (·.per_game_power)) = 0) := by
  have hfne : (zsFirstPass player_stats raw_stats).map (·.per_game_power) ≠ [] := by
    simp only [ne_eq, List.map_eq_nil_iff, zsFirstPass]
    simpa using hne
  set mn := listMin ((zsFirstPass player_stats raw_stats).map (·.per_game_power)) with hmn
  have hmap : (calculate_zscores player_stats raw_stats).map (·.per_game_power) =
      ((zsFirstPass player_stats raw_stats).map (·.per_game_power)).map
        (fun x => x + (if mn < 0 then |mn| + 1 else 0)) := by
    unfold calculate_zscores
    simp only [List.map_map, Function.comp_def, hmn]
  rw [hmap, listMin_map_add _ _ hfne, ← hmn]
  by_cases h : mn < 0
  · rw [if_pos h, abs_of_neg h]
    constructor
    · linarith
    · constructor
      · intro h1
        linarith
      · intro h1
        rw [h1] at h
        exact absurd h (by norm_num)
  · rw [if_neg h]
    push_neg at h
    constructor
    · linarith
    · constructor <;> intro h1 <;> linarith

/-- Witness for C3: the amended theorem applied to a one-player pool with a
single points value. -/
theorem c3_baseline_shift_witness :
    ([⟨fun s => if s = "PTS" then some 1 else none, none⟩] : List ZPlayerIn) ≠ [] ∧
    (0 ≤ listMin ((calculate_zscores
        [⟨fun s => if s = "PTS" then some 1 else none, none⟩]
        (fun s => if s = "PTS" then [1] else [])).map (·.per_game_power)) ∧
      (listMin ((calculate_zscores
          [⟨fun s => if s = "PTS" then some 1 else none, none⟩]
          (fun s => if s = "PTS" then [1] else [])).map (·.per_game_power)) = 0 ↔
        listMin ((zsFirstPass
          [⟨fun s => if s = "PTS" then some 1 else none, none⟩]
          (fun s => if s = "PTS" then [1] else [])).map (·.per_game_power)) = 0)) :=
  ⟨by simp,
    c3_baseline_shift
      [⟨fun s => if s = "PTS" then some 1 else none, none⟩]
      (fun s => if s = "PTS" then [1] else []) (by simp)⟩

/-- C3 counterexample: a pool of one player with no recorded values has raw
per_game_power 0, the baseline is 0, and the shifted minimum is exactly 0,
not strictly greater than 0 as the claim states. -/
theorem c3_counterexample :
    listMin ((calculate_zscores ([⟨fun _ => none, none⟩] : List ZPlayerIn)
      (fun _ => [])).map (·.per_game_power)) = 0 := by
  simp [calculate_zscores, zsFirstPass, listMin, STAT_CATEGORIES]

-- ==========================================================================
-- Claim C1: unknown matchup id and unknown time-period key
-- ==========================================================================
/-- C1 (amended): for a matchup identifier that is not a key of the matchup
schedule, calculate_team_matchup_stats silently returns the all-zero totals
(with FT% = 0.0) instead of reporting a validation failure; an unrecognized
time-period key, by contrast, is reported as a validation failure by
utils.convert_stat_key (a ValueError). -/
theorem c1_invalid_inputs (φ : ℝ → ℝ) (team : Team) (mid : Nat) (lg : League)
    (proMap : List (Nat × String)) (pz : String → Option ℝ) (stats_key k : String)
    (hmid : MATCHUP_SCHEDULE_2026.find? (fun x => x.1 == mid) = none)
    (hk1 : strStartsWith k "2026_" = false)
    (hk2 : dictLookup statKeyMap (strToLower k) = none) :
    calculate_team_matchup_stats φ team mid lg proMap pz stats_key = zeroTotals ∧
    convert_stat_key k = Except.error ("Invalid stat_key " ++ k) := by
  constructor
  · have hsched : scheduleLookup mid = [] := by
      unfold scheduleLookup
      rw [hmid]
      rfl
    unfold calculate_team_matchup_stats
    rw [hsched]
    simp only [List.foldl_nil]
    rw [if_neg (by norm_num [zeroTotals])]
    rfl
  · unfold convert_stat_key
    rw [hk1, hk2]
    simp

/-- Witness for C1: the amended theorem applied at matchup id 21 (not in the
schedule) and the short key "bogus" (not in the key map), with an empty team
and league. -/
theorem c1_invalid_inputs_witness :
    (MATCHUP_SCHEDULE_2026.find? (fun x => x.1 == 21) = none ∧
      strStartsWith "bogus" "2026_" = false ∧
      dictLookup statKeyMap (strToLower "bogus") = none) ∧
    (calculate_team_matchup_stats phiClamp ⟨"T", []⟩ 21 ⟨[]⟩ []
        (fun _ => none) "2026_projected" = zeroTotals ∧
      convert_stat_key "bogus" = Except.error ("Invalid stat_key " ++ "bogus")) :=
  ⟨⟨by decide, by decide, by decide⟩,
    c1_invalid_inputs phiClamp ⟨"T", []⟩ 21 ⟨[]⟩ [] (fun _ => none)
      "2026_projected" "bogus" (by decide) (by decide) (by decide)⟩

/-- C1 counterexample: at the unknown matchup identifier 0 the function
calculate_team_matchup_stats returns the all-zero totals rather than
reporting any validation failure (its result type has no failure channel),
so the matchup half of the claim fails on the code. -/
theorem c1_counterexample :
    MATCHUP_SCHEDULE_2026.find? (fun x => x.1 == 0) = none ∧
    calculate_team_matchup_stats phiClamp ⟨"T", []⟩ 0 ⟨[]⟩ []
      (fun _ => none) "2026_projected" = zeroTotals := by
  constructor
  · decide
  · have hsched : scheduleLookup 0 = [] := by decide
    unfold calculate_team_matchup_stats
    rw [hsched]
    simp only [List.foldl_nil]
    rw [if_neg (by norm_num [zeroTotals])]
    rfl

theorem compare_teams_eq_foldl (aN : String) (ta : String → Option ℝ)
    (bN : String) (tb : String → Option ℝ) :
    compare_teams aN ta bN tb =
      STAT_CATEGORIES.foldl (compareStep aN ta bN tb) ([], 0, 0) := rfl

theorem compare_swap_aux (aN bN : String) (ta tb : String → Option ℝ) :
    ∀ (cats : List String) (res : List (String × String)) (wa wb : Nat),
      cats.foldl (compareStep bN tb aN ta) (res, wb, wa) =
        ((cats.foldl (compareStep aN ta bN tb) (res, wa, wb)).1,
         (cats.foldl (compareStep aN ta bN tb) (res, wa, wb)).2.2,
         (cats.foldl (compareStep aN ta bN tb) (res, wa, wb)).2.1) := by
  intro cats
  induction cats with
  | nil => intro res wa wb; rfl
  | cons stat rest ih =>
    intro res wa wb
    simp only [List.foldl_cons]
    rcases lt_trichotomy ((ta stat).getD 0) ((tb stat).getD 0) with h | h | h
    · have e1 : compareStep aN ta bN tb (res, wa, wb) stat =
          (res ++ [(stat, bN)], wa, wb + 1) := by
        unfold compareStep
        rw [if_neg (lt_asymm h), if_pos h]
      have e2 : compareStep bN tb aN ta (res, wb, wa) stat =
          (res ++ [(stat, bN)], wb + 1, wa) := by
        unfold compareStep
        rw [if_pos h]
      rw [e1, e2, ih]
    · have e1 : compareStep aN ta bN tb (res, wa, wb) stat =
          (res ++ [(stat, "TIE")], wa, wb) := by
        unfold compareStep
        rw [if_neg (by rw [h]; exact lt_irrefl _), if_neg (by rw [h]; exact lt_irrefl _)]
      have e2 : compareStep bN tb aN ta (res, wb, wa) stat =
          (res ++ [(stat, "TIE")], wb, wa) := by
        unfold compareStep
        rw [if_neg (by rw [h]; exact lt_irrefl _), if_neg (by rw [h]; exact lt_irrefl _)]
      rw [e1, e2, ih]
    · have e1 : compareStep aN ta bN tb (res, wa, wb) stat =
          (res ++ [(stat, aN)], wa + 1, wb) := by
        unfold compareStep
        rw [if_pos h]
      have e2 : compareStep bN tb aN ta (res, wb, wa) stat =
          (res ++ [(stat, aN)], wb, wa + 1) := by
        unfold compareStep
        rw [if_neg (lt_asymm h), if_pos h]
      rw [e1, e2, ih]

theorem compare_mem_aux (aN bN : String) (ta tb : String → Option ℝ) :
    ∀ (cats : List String) (res : List (String × String)) (wa wb : Nat),
      ∀ e ∈ (cats.foldl (compareStep aN ta bN tb) (res, wa, wb)).1,
        e ∈ res ∨
        (e.2 = "TIE" ∧ (ta e.1).getD 0 = (tb e.1).getD 0) ∨
        (e.2 = aN ∧ (tb e.1).getD 0 < (ta e.1).getD 0) ∨
        (e.2 = bN ∧ (ta e.1).getD 0 < (tb e.1).getD 0) := by
  intro cats
  induction cats with
  | nil =>
    intro res wa wb e he
    exact Or.inl he
  | cons stat rest ih =>
    intro res wa wb e he
    simp only [List.foldl_cons] at he
    rcases lt_trichotomy ((ta stat).getD 0) ((tb stat).getD 0) with h | h | h
    · rw [show compareStep aN ta bN tb (res, wa, wb) stat =
          (res ++ [(stat, bN)], wa, wb + 1) by
            unfold compareStep; rw [if_neg (lt_asymm h), if_pos h]] at he
      rcases ih _ _ _ e he with hin | hp
      · rcases List.mem_append.mp hin with hin2 | hin2
        · exact Or.inl hin2
        · simp only [List.mem_singleton] at hin2
          subst hin2
          exact Or.inr (Or.inr (Or.inr ⟨rfl, h⟩))
      · exact Or.inr hp
    · rw [show compareStep aN ta bN tb (res, wa, wb) stat =
          (res ++ [(stat, "TIE")], wa, wb) by
            unfold compareStep
            rw [if_neg (by rw [h]; exact lt_irrefl _),
              if_neg (by rw [h]; exact lt_irrefl _)]] at he
      rcases ih _ _ _ e he with hin | hp
      · rcases List.mem_append.mp hin with hin2 | hin2
        · exact Or.inl hin2
        · simp only [List.mem_singleton] at hin2
          subst hin2
          exact Or.inr (Or.inl ⟨rfl, h⟩)
      · exact Or.inr hp
    · rw [show compareStep aN ta bN tb (res, wa, wb) stat =
          (res ++ [(stat, aN)], wa + 1, wb) by
            unfold compareStep; rw [if_pos h]] at he
      rcases ih _ _ _ e he with hin | hp
      · rcases List.mem_append.mp hin with hin2 | hin2
        · exact Or.inl hin2
        · simp only [List.mem_singleton] at hin2
          subst hin2
          exact Or.inr (Or.inr (Or.inl ⟨rfl, h⟩))
      · exact Or.inr hp

/-- C9: compare_teams is antisymmetric: calling it with the two team inputs
swapped returns the same category-results dictionary (every category is still
won by the same team name, so relative to the call positions every non-tie
winner flips to the other argument slot and every tie stays a tie) with the
two win counts swapped; moreover every recorded winner is TIE exactly on
equal values, the first team name exactly when its value is strictly
greater, and the second team name exactly when its value is strictly
greater. -/
theorem c9_compare_antisym (aN : String) (ta : String → Option ℝ)
    (bN : String) (tb : String → Option ℝ) :
    compare_teams bN tb aN ta =
      ((compare_teams aN ta bN tb).1,
       (compare_teams aN ta bN tb).2.2,
       (compare_teams aN ta bN tb).2.1) ∧
    ∀ e ∈ (compare_teams aN ta bN tb).1,
      (e.2 = "TIE" ∧ (ta e.1).getD 0 = (tb e.1).getD 0) ∨
      (e.2 = aN ∧ (tb e.1).getD 0 < (ta e.1).getD 0) ∨
      (e.2 = bN ∧ (ta e.1).getD 0 < (tb e.1).getD 0) := by
  constructor
  · rw [compare_teams_eq_foldl, compare_teams_eq_foldl]
    exact compare_swap_aux aN bN ta tb STAT_CATEGORIES [] 0 0
  · intro e he
    rw [compare_teams_eq_foldl] at he
    rcases compare_mem_aux aN bN ta tb STAT_CATEGORIES [] 0 0 e he with hin | hp
    · exact absurd hin (List.not_mem_nil e)
    · exact hp

-- ==========================================================================
-- Claim C2: lineup validity (no reuse, eligibility)
-- ==========================================================================
theorem can_fill_position_iff (pp sp : String) :
    can_fill_position pp sp = true ↔ eligibleSpec pp sp := by
  unfold can_fill_position eligibleSpec posList
  by_cases h1 : sp = "UTIL"
  · simp [h1]
  · rw [if_neg (by simpa using h1)]
    by_cases h2 : sp ∈ (pp.splitOn ",").map (·.trim)
    · simp [h2, List.contains, List.elem_iff]
    · rw [if_neg (by simpa [List.contains, List.elem_iff] using h2)]
      simp only [List.any_eq_true, Bool.or_eq_true, beq_iff_eq, Bool.and_eq_true,
        decide_eq_true_eq]
      by_cases h3 : sp = "G"
      · subst h3
        by_cases h4 : ∃ x ∈ (pp.splitOn ",").map (·.trim), x = "PG" ∨ x = "SG"
        · rw [if_pos ⟨rfl, h4⟩]
          refine iff_of_true rfl ?_
          obtain ⟨x, hx, hor⟩ := h4
          refine Or.inr (Or.inr (Or.inl ⟨by trivial, ?_⟩))
          rcases hor with rfl | rfl
          · exact Or.inl hx
          · exact Or.inr hx
        · rw [if_neg (fun hc => h4 hc.2), if_neg (by simp)]
          refine iff_of_false (by simp) ?_
          intro hc
          rcases hc with hc | hc | hc | hc
          · exact h1 hc
          · exact h2 hc
          · obtain ⟨_, hor⟩ := hc
            rcases hor with hx | hx
            · exact h4 ⟨"PG", hx, Or.inl rfl⟩
            · exact h4 ⟨"SG", hx, Or.inr rfl⟩
          · simp at hc
      · rw [if_neg (fun hc => h3 hc.1)]
        by_cases h5 : sp = "F"
        · subst h5
          by_cases h6 : ∃ x ∈ (pp.splitOn ",").map (·.trim), x = "SF" ∨ x = "PF"
          · rw [if_pos ⟨rfl, h6⟩]
            refine iff_of_true rfl ?_
            obtain ⟨x, hx, hor⟩ := h6
            refine Or.inr (Or.inr (Or.inr ⟨by trivial, ?_⟩))
            rcases hor with rfl | rfl
            · exact Or.inl hx
            · exact Or.inr hx
          · rw [if_neg (fun hc => h6 hc.2)]
            refine iff_of_false (by simp) ?_
            intro hc
            rcases hc with hc | hc | hc | hc
            · exact h1 hc
            · exact h2 hc
            · exact h3 hc.1
            · obtain ⟨_, hor⟩ := hc
              rcases hor with hx | hx
              · exact h6 ⟨"SF", hx, Or.inl rfl⟩
              · exact h6 ⟨"PF", hx, Or.inr rfl⟩
        · rw [if_neg (fun hc => h5 hc.1)]
          refine iff_of_false (by simp) ?_
          intro hc
          rcases hc with hc | hc | hc | hc
          · exact h1 hc
          · exact h2 hc
          · exact h3 hc.1
          · exact h5 hc.1

theorem findAssign_spec (φ : ℝ → ℝ) (stats_key slot : String)
    (used : List String) :
    ∀ (ps : List (Player × ℝ)) (p : Player) (st : LineupStats),
      findAssign φ stats_key slot used ps = some (p, st) →
      can_fill_position p.position slot = true ∧ p.name ∉ used ∧
        p ∈ ps.map Prod.fst ∧
          ∃ m, get_player_per_game_stats p stats_key = some m ∧
            st = mkLineupStats φ m := by
  intro ps
  induction ps with
  | nil =>
    intro p st h
    exact absurd h (by simp [findAssign])
  | cons q rest ih =>
    intro p st h
    rw [show findAssign φ stats_key slot used (q :: rest) =
        (if q.1.name ∈ used then findAssign φ stats_key slot used rest
         else if can_fill_position q.1.position slot then
           match get_player_per_game_stats q.1 stats_key with
           | some m => some (q.1, mkLineupStats φ m)
           | none => findAssign φ stats_key slot used rest
         else findAssign φ stats_key slot used rest) from rfl] at h
    by_cases h1 : q.1.name ∈ used
    · rw [if_pos h1] at h
      obtain ⟨hc, hu, hm, hw⟩ := ih p st h
      exact ⟨hc, hu, List.mem_cons_of_mem _ hm, hw⟩
    · rw [if_neg h1] at h
      by_cases h2 : can_fill_position q.1.position slot = true
      · rw [if_pos h2] at h
        cases hst : get_player_per_game_stats q.1 stats_key with
        | none =>
          rw [hst] at h
          obtain ⟨hc, hu, hm, hw⟩ := ih p st h
          exact ⟨hc, hu, List.mem_cons_of_mem _ hm, hw⟩
        | some m =>
          rw [hst] at h
          injection h with h3
          injection h3 with h4 h5
          subst h4
          subst h5
          exact ⟨h2, h1, List.mem_cons_self _ _, m, hst, rfl⟩
      · rw [if_neg h2] at h
        obtain ⟨hc, hu, hm, hw⟩ := ih p st h
        exact ⟨hc, hu, List.mem_cons_of_mem _ hm, hw⟩

theorem dictInsert_mem {β : Type} :
    ∀ (l : List (String × β)) (k : String) (v : β) (x : String × β),
      x ∈ dictInsert l k v → x ∈ l ∨ x = (k, v) := by
  intro l
  induction l with
  | nil =>
    intro k v x hx
    simp only [dictInsert, List.mem_singleton] at hx
    exact Or.inr hx
  | cons h t ih =>
    intro k v x hx
    rw [show dictInsert (h :: t) k v =
        (if h.1 = k then (k, v) :: t else h :: dictInsert t k v) from by
          cases h; rfl] at hx
    by_cases hk : h.1 = k
    · rw [if_pos hk] at hx
      rcases List.mem_cons.mp hx with rfl | hx2
      · exact Or.inr rfl
      · exact Or.inl (List.mem_cons_of_mem _ hx2)
    · rw [if_neg hk] at hx
      rcases List.mem_cons.mp hx with rfl | hx2
      · exact Or.inl (List.mem_cons_self _ _)
      · rcases ih k v x hx2 with hin | heq
        · exact Or.inl (List.mem_cons_of_mem _ hin)
        · exact Or.inr heq

theorem mem_assignedNames (L : List (String × Option (Player × LineupStats)))
    (n : String) :
    n ∈ assignedNames L ↔ ∃ x ∈ L, ∃ y, x.2 = some y ∧ y.1.name = n := by
  simp [assignedNames, List.mem_filterMap, Option.map_eq_some']

theorem assignedNames_insert_or (l : List (String × Option (Player × LineupStats)))
    (k : String) (v : Option (Player × LineupStats)) :
    ∀ n ∈ assignedNames (dictInsert l k v),
      (∃ y, v = some y ∧ n = y.1.name) ∨ n ∈ assignedNames l := by
  intro n hn
  rcases (mem_assignedNames _ n).mp hn with ⟨x, hx, y, hy, hname⟩
  rcases dictInsert_mem l k v x hx with hin | rfl
  · exact Or.inr ((mem_assignedNames _ n).mpr ⟨x, hin, y, hy, hname⟩)
  · exact Or.inl ⟨y, hy, hname.symm⟩

theorem assignedNames_cons (k : String) (v : Option (Player × LineupStats))
    (t : List (String × Option (Player × LineupStats))) :
    assignedNames ((k, v) :: t) =
      (match v with
       | some y => y.1.name :: assignedNames t
       | none => assignedNames t) := by
  cases v <;> simp [assignedNames]

theorem assignedNames_insert_some :
    ∀ (l : List (String × Option (Player × LineupStats))) (k : String)
      (p : Player) (st : LineupStats) (used : List String),
      (∀ n ∈ assignedNames l, n ∈ used) → (assignedNames l).Nodup →
      p.name ∉ used →
      (∀ n ∈ assignedNames (dictInsert l k (some (p, st))),
        n = p.name ∨ n ∈ used) ∧
      (assignedNames (dictInsert l k (some (p, st)))).Nodup := by
  intro l
  induction l with
  | nil =>
    intro k p st used _ _ _
    constructor
    · intro n hn
      simp only [dictInsert, assignedNames, List.filterMap] at hn
      simp at hn
      exact Or.inl hn
    · simp [dictInsert, assignedNames, List.filterMap]
  | cons hd t ih =>
    intro k p st used hsub hnd hpu
    rw [show dictInsert (hd :: t) k (some (p, st)) =
        (if hd.1 = k then (k, some (p, st)) :: t
         else hd :: dictInsert t k (some (p, st))) from by cases hd; rfl]
    have hsub_t : ∀ n ∈ assignedNames t, n ∈ used := by
      intro n hn
      apply hsub
      rw [show hd = (hd.1, hd.2) from rfl, assignedNames_cons]
      cases hv : hd.2 with
      | none => exact hn
      | some y => exact List.mem_cons_of_mem _ hn
    have hnd_t : (assignedNames t).Nodup := by
      rw [show hd = (hd.1, hd.2) from rfl, assignedNames_cons] at hnd
      cases hv : hd.2 with
      | none => rw [hv] at hnd; exact hnd
      | some y => rw [hv] at hnd; exact hnd.of_cons
    by_cases hk : hd.1 = k
    · rw [if_pos hk, assignedNames_cons]
      constructor
      · intro n hn
        rcases List.mem_cons.mp hn with rfl | hn2
        · exact Or.inl rfl
        · exact Or.inr (hsub_t n hn2)
      · exact List.nodup_cons.mpr ⟨fun hc => hpu (hsub_t _ hc), hnd_t⟩
    · rw [if_neg hk]
      obtain ⟨ih1, ih2⟩ := ih k p st used hsub_t hnd_t hpu
      rw [show hd = (hd.1, hd.2) from rfl, assignedNames_cons]
      cases hv : hd.2 with
      | none =>
        exact ⟨ih1, ih2⟩
      | some y =>
        have hyu : y.1.name ∈ used := by
          apply hsub
          rw [show hd = (hd.1, hd.2) from rfl, assignedNames_cons, hv]
          exact List.mem_cons_self _ _
        have hynot : y.1.name ∉ assignedNames t := by
          rw [show hd = (hd.1, hd.2) from rfl, assignedNames_cons, hv] at hnd
          exact (List.nodup_cons.mp hnd).1
        constructor
        · intro n hn
          rcases List.mem_cons.mp hn with rfl | hn2
          · exact Or.inr hyu
          · exact ih1 n hn2
        · refine List.nodup_cons.mpr ⟨?_, ih2⟩
          intro hc
          rcases assignedNames_insert_or t k (some (p, st)) _ hc with ⟨z, hz, hzn⟩ | hin
          · injection hz with hz2
            rw [hzn, ← hz2] at hyu
            exact hpu hyu
          · exact hynot hin

theorem assignedNames_insert_none :
    ∀ (l : List (String × Option (Player × LineupStats))) (k : String),
      (assignedNames l).Nodup →
      (assignedNames (dictInsert l k none)).Nodup ∧
      (∀ n ∈ assignedNames (dictInsert l k none), n ∈ assignedNames l) := by
  intro l
  induction l with
  | nil =>
    intro k _
    constructor
    · simp [dictInsert, assignedNames]
    · intro n hn
      simp [dictInsert, assignedNames] at hn
  | cons hd t ih =>
    intro k hnd
    rw [show dictInsert (hd :: t) k none =
        (if hd.1 = k then (k, none) :: t
         else hd :: dictInsert t k none) from by cases hd; rfl]
    have hnd_t : (assignedNames t).Nodup := by
      rw [show hd = (hd.1, hd.2) from rfl, assignedNames_cons] at hnd
      cases hv : hd.2 with
      | none => rw [hv] at hnd; exact hnd
      | some y => rw [hv] at hnd; exact hnd.of_cons
    by_cases hk : hd.1 = k
    · rw [if_pos hk, assignedNames_cons]
      refine ⟨hnd_t, ?_⟩
      intro n hn
      rw [show hd = (hd.1, hd.2) from rfl, assignedNames_cons]
      cases hv : hd.2 with
      | none => exact hn
      | some y => exact List.mem_cons_of_mem _ hn
    · rw [if_neg hk]
      obtain ⟨ih1, ih2⟩ := ih k hnd_t
      rw [show hd = (hd.1, hd.2) from rfl, assignedNames_cons]
      cases hv : hd.2 with
      | none =>
        refine ⟨ih1, ?_⟩
        intro n hn
        exact ih2 n hn
      | some y =>
        have hynot : y.1.name ∉ assignedNames t := by
          rw [show hd = (hd.1, hd.2) from rfl, assignedNames_cons, hv] at hnd
          exact (List.nodup_cons.mp hnd).1
        constructor
        · exact List.nodup_cons.mpr ⟨fun hc => hynot (ih2 _ hc), ih1⟩
        · intro n hn
          change n ∈ y.1.name :: assignedNames (dictInsert t k none) at hn
          change n ∈ y.1.name :: assignedNames t
          rcases List.mem_cons.mp hn with rfl | hn2
          · exact List.mem_cons_self _ _
          · exact List.mem_cons_of_mem _ (ih2 n hn2)

theorem optimize_lineup_eq_foldl (φ : ℝ → ℝ) (available_players : List Player)
    (player_zscores : String → Option ℝ) (stats_key : String) :
    optimize_lineup φ available_players player_zscores stats_key =
      (LINEUP_SLOTS.foldl
        (lineupStep φ stats_key
          (sortByPowerDesc (playersWithPower available_players player_zscores)))
        ([], [])).1 := rfl

theorem lineupStep_inv (φ : ℝ → ℝ) (stats_key : String)
    (sorted : List (Player × ℝ))
    (acc : List (String × Option (Player × LineupStats)) × List String)
    (slot : String) (h : lineupInv φ stats_key sorted acc) :
    lineupInv φ stats_key sorted (lineupStep φ stats_key sorted acc slot) := by
  obtain ⟨h1, h2, h3⟩ := h
  unfold lineupStep
  cases hfa : findAssign φ stats_key slot acc.2 sorted with
  | none =>
    obtain ⟨hn1, hn2⟩ := assignedNames_insert_none acc.1 slot h1
    refine ⟨hn1, fun n hn => h2 n (hn2 n hn), ?_⟩
    intro x hx p st hst
    rcases dictInsert_mem acc.1 slot none x hx with hin | rfl
    · exact h3 x hin p st hst
    · exact absurd hst (by simp)
  | some pst =>
    obtain ⟨p, st⟩ := pst
    obtain ⟨hcf, hnu, hmem, hw⟩ := findAssign_spec φ stats_key slot acc.2 sorted p st hfa
    obtain ⟨hs1, hs2⟩ := assignedNames_insert_some acc.1 slot p st acc.2 h2 h1 hnu
    refine ⟨hs2, ?_, ?_⟩
    · intro n hn
      rcases hs1 n hn with rfl | hin
      · exact List.mem_cons_self _ _
      · exact List.mem_cons_of_mem _ hin
    · intro x hx q stq hstq
      rcases dictInsert_mem acc.1 slot (some (p, st)) x hx with hin | rfl
      · exact h3 x hin q stq hstq
      · simp only at hstq
        injection hstq with hpq
        injection hpq with hq hstq2
        subst hq
        subst hstq2
        exact ⟨hcf, hmem, hw⟩

theorem lineup_foldl_inv (φ : ℝ → ℝ) (stats_key : String)
    (sorted : List (Player × ℝ)) :
    ∀ (slots : List String)
      (acc : List (String × Option (Player × LineupStats)) × List String),
      lineupInv φ stats_key sorted acc →
      lineupInv φ stats_key sorted
        (slots.foldl (lineupStep φ stats_key sorted) acc) := by
  intro slots
  induction slots with
  | nil => intro acc h; exact h
  | cons slot rest ih =>
    intro acc h
    exact ih _ (lineupStep_inv φ stats_key sorted acc slot h)

theorem sorted_fst_mem (available_players : List Player)
    (player_zscores : String → Option ℝ) :
    ∀ q ∈ (sortByPowerDesc (playersWithPower available_players player_zscores)).map
        Prod.fst, q ∈ available_players := by
  intro q hq
  rcases List.mem_map.mp hq with ⟨pair, hpair, rfl⟩
  have hperm := List.mergeSort_perm (playersWithPower available_players player_zscores)
    (fun x y => decide (y.2 ≤ x.2))
  have hmem : pair ∈ playersWithPower available_players player_zscores :=
    hperm.subset hpair
  unfold playersWithPower at hmem
  rcases List.mem_filterMap.mp hmem with ⟨p2, hp2, hmap⟩
  rcases Option.map_eq_some'.mp hmap with ⟨w, _, hpair_eq⟩
  rw [← hpair_eq]
  exact hp2

/-- The lineup facts both claim C2 and claim C6 rest on: distinct assigned
player names, eligibility of every filled slot, assigned players drawn from
the available pool, and each filled slot carrying exactly the stats built
from the avg dictionary of its player. -/
theorem optimize_lineup_sound (φ : ℝ → ℝ) (available_players : List Player)
    (player_zscores : String → Option ℝ) (stats_key : String) :
    (assignedNames (optimize_lineup φ available_players player_zscores stats_key)).Nodup ∧
    ∀ x ∈ optimize_lineup φ available_players player_zscores stats_key,
      ∀ p st, x.2 = some (p, st) →
        can_fill_position p.position x.1 = true ∧ p ∈ available_players ∧
          ∃ m, get_player_per_game_stats p stats_key = some m ∧
            st = mkLineupStats φ m := by
  have h0 : lineupInv φ stats_key
      (sortByPowerDesc (playersWithPower available_players player_zscores))
      ([], []) := by
    refine ⟨by simp [assignedNames], ?_, ?_⟩
    · intro n hn
      simp [assignedNames] at hn
    · intro x hx
      simp at hx
  have h := lineup_foldl_inv φ stats_key
    (sortByPowerDesc (playersWithPower available_players player_zscores))
    LINEUP_SLOTS ([], []) h0
  obtain ⟨h1, _, h3⟩ := h
  rw [optimize_lineup_eq_foldl]
  refine ⟨h1, ?_⟩
  intro x hx p st hst
  obtain ⟨hcf, hmem, hw⟩ := h3 x hx p st hst
  exact ⟨hcf, sorted_fst_mem available_players player_zscores p hmem, hw⟩

/-- C2: for every available-player list, every z-score map and every stats
key (hence every day), the lineup returned by optimize_lineup assigns each
player name to at most one slot of the returned lineup dictionary, and every
filled slot holds a player whose comma-separated position list satisfies the
slot eligibility rule of the specification: UTIL accepts anyone, G accepts a
holder of PG or SG, F accepts a holder of SF or PF, and an exact slot
accepts a holder of that exact position. -/
theorem c2_lineup_valid (φ : ℝ → ℝ) (available_players : List Player)
    (player_zscores : String → Option ℝ) (stats_key : String) :
    (assignedNames (optimize_lineup φ available_players player_zscores stats_key)).Nodup ∧
    ∀ x ∈ optimize_lineup φ available_players player_zscores stats_key,
      ∀ p st, x.2 = some (p, st) → eligibleSpec p.position x.1 := by
  obtain ⟨h1, h2⟩ := optimize_lineup_sound φ available_players player_zscores stats_key
  refine ⟨h1, ?_⟩
  intro x hx p st hst
  exact (can_fill_position_iff p.position x.1).mp (h2 x hx p st hst).1

-- ==========================================================================
-- Claim C6: matchup totals, FT% and empty days
-- ==========================================================================
theorem mkLineupStats_fta_nonneg (φ : ℝ → ℝ) (m : String → Option ℝ)
    (hm : ∀ s v, m s = some v → 0 ≤ v) : 0 ≤ (mkLineupStats φ m).fta := by
  unfold mkLineupStats
  simp only
  cases hv : m "FTA" with
  | none => simp
  | some v => simpa using hm "FTA" v hv

theorem foldl_accum_fta (l : List (String × Option (Player × LineupStats))) :
    ∀ (tot : MatchupTotals),
      (∀ x ∈ l, ∀ p st, x.2 = some (p, st) → 0 ≤ st.fta) →
      tot.fta ≤ (l.foldl accumEntry tot).fta := by
  induction l with
  | nil => intro tot _; exact le_refl _
  | cons x rest ih =>
    intro tot hl
    simp only [List.foldl_cons]
    have hrest : ∀ y ∈ rest, ∀ p st, y.2 = some (p, st) → 0 ≤ st.fta :=
      fun y hy => hl y (List.mem_cons_of_mem _ hy)
    have hstep : tot.fta ≤ (accumEntry tot x).fta := by
      cases hx2 : x.2 with
      | none => simp [accumEntry, hx2]
      | some pst =>
        obtain ⟨p, st⟩ := pst
        have := hl x (List.mem_cons_self _ _) p st hx2
        simp only [accumEntry, hx2]
        linarith
    exact le_trans hstep (ih (accumEntry tot x) hrest)

theorem dayStep_fta (φ : ℝ → ℝ) (team : Team) (matchup_id : Nat) (lg : League)
    (proMap : List (Nat × String)) (pz : String → Option ℝ) (stats_key : String)
    (hnn : ∀ p ∈ team.roster, ∀ k m, p.stats k = some m →
      ∀ s v, m s = some v → 0 ≤ v)
    (tot : MatchupTotals) (sp : Nat) :
    tot.fta ≤ (dayStep φ team matchup_id lg proMap pz stats_key tot sp).fta := by
  unfold dayStep
  by_cases he : (get_players_playing_on_date team.roster sp matchup_id lg proMap).isEmpty
  · rw [if_pos he]
  · rw [if_neg he]
    apply foldl_accum_fta
    intro x hx p st hst
    obtain ⟨_, hmem, m, hm, rfl⟩ :=
      (optimize_lineup_sound φ _ pz stats_key).2 x hx p st hst
    have hro : p ∈ team.roster := by
      unfold get_players_playing_on_date at hmem
      exact (List.mem_filter.mp hmem).1
    exact mkLineupStats_fta_nonneg φ m (hnn p hro stats_key m hm)

theorem foldl_dayStep_fta (φ : ℝ → ℝ) (team : Team) (matchup_id : Nat)
    (lg : League) (proMap : List (Nat × String)) (pz : String → Option ℝ)
    (stats_key : String)
    (hnn : ∀ p ∈ team.roster, ∀ k m, p.stats k = some m →
      ∀ s v, m s = some v → 0 ≤ v) :
    ∀ (sps : List Nat) (tot : MatchupTotals),
      tot.fta ≤ (sps.foldl (dayStep φ team matchup_id lg proMap pz stats_key) tot).fta := by
  intro sps
  induction sps with
  | nil => intro tot; exact le_refl _
  | cons sp rest ih =>
    intro tot
    simp only [List.foldl_cons]
    exact le_trans (dayStep_fta φ team matchup_id lg proMap pz stats_key hnn tot sp)
      (ih _)

/-- C6: the totals returned by calculate_team_matchup_stats have a
non-negative accumulated FTA (under the natural assumption that the roster
stat values are non-negative), FT% equal to accumulated FTM over accumulated
FTA and exactly 0.0 when accumulated FTA is 0, and any day on which no
roster player is eligible leaves the accumulated totals unchanged (and the
computation raises nothing: it is a total function). -/
theorem c6_matchup_totals (φ : ℝ → ℝ) (team : Team) (matchup_id : Nat)
    (lg : League) (proMap : List (Nat × String)) (pz : String → Option ℝ)
    (stats_key : String) (tot : MatchupTotals) (sp : Nat)
    (hnn : ∀ p ∈ team.roster, ∀ k m, p.stats k = some m →
      ∀ s v, m s = some v → 0 ≤ v)
    (hempty : get_players_playing_on_date team.roster sp matchup_id lg proMap = []) :
    0 ≤ (calculate_team_matchup_stats φ team matchup_id lg proMap pz stats_key).fta ∧
    (calculate_team_matchup_stats φ team matchup_id lg proMap pz stats_key).ftPct =
      (if (calculate_team_matchup_stats φ team matchup_id lg proMap pz stats_key).fta = 0
       then 0
       else (calculate_team_matchup_stats φ team matchup_id lg proMap pz stats_key).ftm /
         (calculate_team_matchup_stats φ team matchup_id lg proMap pz stats_key).fta) ∧
    dayStep φ team matchup_id lg proMap pz stats_key tot sp = tot := by
  have hday : dayStep φ team matchup_id lg proMap pz stats_key tot sp = tot := by
    unfold dayStep
    rw [hempty]
    rfl
  set t := (scheduleLookup matchup_id).foldl
    (dayStep φ team matchup_id lg proMap pz stats_key) zeroTotals with hT
  have h0 : (0 : ℝ) ≤ t.fta := by
    have := foldl_dayStep_fta φ team matchup_id lg proMap pz stats_key hnn
      (scheduleLookup matchup_id) zeroTotals
    simpa [zeroTotals, hT] using this
  have ht : calculate_team_matchup_stats φ team matchup_id lg proMap pz stats_key =
      (if 0 < t.fta then { t with ftPct := t.ftm / t.fta }
       else { t with ftPct := 0 }) := rfl
  by_cases hpos : 0 < t.fta
  · rw [ht, if_pos hpos]
    refine ⟨by simpa using h0, ?_, hday⟩
    simp only
    rw [if_neg (by simpa using (ne_of_gt hpos))]
  · rw [ht, if_neg hpos]
    have hz : t.fta = 0 := le_antisymm (not_lt.mp hpos) h0
    refine ⟨by simpa using h0, ?_, hday⟩
    simp only
    rw [if_pos (by simpa using hz)]

/-- Witness for C6: the theorem applied to an empty roster, matchup 1 and
scoring period 1; the empty-day hypothesis holds because the roster filter
of an empty roster is empty. -/
theorem c6_matchup_totals_witness :
    0 ≤ (calculate_team_matchup_stats phiClamp ⟨"T", []⟩ 1 ⟨[]⟩ []
      (fun _ => none) "2026_projected").fta ∧
    (calculate_team_matchup_stats phiClamp ⟨"T", []⟩ 1 ⟨[]⟩ []
      (fun _ => none) "2026_projected").ftPct =
      (if (calculate_team_matchup_stats phiClamp ⟨"T", []⟩ 1 ⟨[]⟩ []
          (fun _ => none) "2026_projected").fta = 0
       then 0
       else (calculate_team_matchup_stats phiClamp ⟨"T", []⟩ 1 ⟨[]⟩ []
          (fun _ => none) "2026_projected").ftm /
         (calculate_team_matchup_stats phiClamp ⟨"T", []⟩ 1 ⟨[]⟩ []
          (fun _ => none) "2026_projected").fta) ∧
    dayStep phiClamp ⟨"T", []⟩ 1 ⟨[]⟩ [] (fun _ => none) "2026_projected"
      zeroTotals 1 = zeroTotals :=
  c6_matchup_totals phiClamp ⟨"T", []⟩ 1 ⟨[]⟩ [] (fun _ => none)
    "2026_projected" zeroTotals 1
    (fun p hp => absurd hp (List.not_mem_nil p)) rfl

-- ==========================================================================
-- Claim C7: the z-score formula of calculate_player_zscores
-- ==========================================================================
theorem dictInsert_fresh {β : Type} :
    ∀ (l : List (String × β)) (k : String) (v : β),
      k ∉ l.map Prod.fst → dictInsert l k v = l ++ [(k, v)] := by
  intro l
  induction l with
  | nil => intro k v _; rfl
  | cons hd t ih =>
    intro k v hk
    rw [show dictInsert (hd :: t) k v =
        (if hd.1 = k then (k, v) :: t else hd :: dictInsert t k v) from by
          cases hd; rfl]
    have h1 : hd.1 ≠ k := by
      intro hc
      exact hk (by simp [← hc])
    rw [if_neg h1, ih k v (fun hc => hk (by simp [hc]))]
    rfl

theorem buildPlayerStats_aux (φ : ℝ → ℝ) (stats_key : String) :
    ∀ (players : List Player) (acc : List (String × (String → Option ℝ))),
      (∀ p ∈ players, p.name ∉ acc.map Prod.fst) →
      (players.map (·.name)).Nodup →
      players.foldl (fun acc p =>
        match get_player_per_game_stats p stats_key with
        | none => acc
        | some m => dictInsert acc p.name (fun stat => playerStatVal φ m stat)) acc =
      acc ++ players.filterMap (fun p =>
        (get_player_per_game_stats p stats_key).map
          (fun m => (p.name, fun stat => playerStatVal φ m stat))) := by
  intro players
  induction players with
  | nil => intro acc _ _; simp
  | cons p t ih =>
    intro acc hfresh hnd
    simp only [List.foldl_cons, List.filterMap_cons]
    cases hm : get_player_per_game_stats p stats_key with
    | none =>
      simp only [Option.map_none']
      exact ih acc (fun q hq => hfresh q (List.mem_cons_of_mem _ hq))
        (List.nodup_cons.mp (by simpa using hnd)).2
    | some m =>
      simp only [Option.map_some']
      rw [dictInsert_fresh acc p.name _ (hfresh p (List.mem_cons_self _ _))]
      rw [ih (acc ++ [(p.name, fun stat => playerStatVal φ m stat)]) ?_ ?_]
      · rw [List.append_assoc]
        rfl
      · intro q hq
        simp only [List.map_append, List.mem_append]
        rintro (hc | hc)
        · exact hfresh q (List.mem_cons_of_mem _ hq) hc
        · have hqn : q.name ∈ t.map (·.name) := List.mem_map_of_mem _ hq
          have hpn : p.name ∉ t.map (·.name) :=
            (List.nodup_cons.mp (by simpa using hnd)).1
          simp only [List.map_cons, List.map_nil, List.mem_singleton] at hc
          rw [hc] at hqn
          exact hpn hqn
      · exact (List.nodup_cons.mp (by simpa using hnd)).2

theorem buildPlayerStats_eq (φ : ℝ → ℝ) (players : List Player)
    (stats_key : String) (hnd : (players.map (·.name)).Nodup) :
    buildPlayerStats φ players stats_key =
      players.filterMap (fun p =>
        (get_player_per_game_stats p stats_key).map
          (fun m => (p.name, fun stat => playerStatVal φ m stat))) := by
  unfold buildPlayerStats
  simpa using buildPlayerStats_aux φ stats_key players [] (by simp) hnd

theorem filterMap_keys_sublist (φ : ℝ → ℝ) (stats_key : String) :
    ∀ (players : List Player),
      ((players.filterMap (fun p =>
        (get_player_per_game_stats p stats_key).map
          (fun m => (p.name, fun stat => playerStatVal φ m stat)))).map
            Prod.fst).Sublist (players.map (·.name)) := by
  intro players
  induction players with
  | nil => simp
  | cons p t ih =>
    simp only [List.filterMap_cons, List.map_cons]
    cases hm : get_player_per_game_stats p stats_key with
    | none =>
      simp only [Option.map_none']
      exact ih.trans (List.sublist_cons_self _ _)
    | some m =>
      simp only [Option.map_some', List.map_cons]
      exact ih.cons₂ _

theorem dictLookup_of_mem {β : Type} :
    ∀ (l : List (String × β)), (l.map Prod.fst).Nodup →
      ∀ (k : String) (v : β), (k, v) ∈ l → dictLookup l k = some v := by
  intro l
  induction l with
  | nil => intro _ k v hm; exact absurd hm (List.not_mem_nil _)
  | cons hd t ih =>
    intro hnd k v hm
    rcases List.mem_cons.mp hm with rfl | hm2
    · unfold dictLookup
      rw [List.find?_cons_of_pos _ (by simp)]
      rfl
    · have hne : hd.1 ≠ k := by
        intro hc
        have hk : k ∈ t.map Prod.fst := List.mem_map.mpr ⟨(k, v), hm2, rfl⟩
        rw [← hc] at hk
        exact (List.nodup_cons.mp (by simpa using hnd)).1 hk
      unfold dictLookup
      rw [List.find?_cons_of_neg _ (by simp [hne])]
      exact ih (List.nodup_cons.mp (by simpa using hnd)).2 k v hm2

theorem calculate_player_zscores_eq (φ : ℝ → ℝ) (players : List Player)
    (stats_key : String) :
    calculate_player_zscores φ players stats_key =
      (buildPlayerStats φ players stats_key).map
        (fun x => (x.1, pzOutOf φ players stats_key x.2)) := rfl

theorem cpz_mem (φ : ℝ → ℝ) (players : List Player) (stats_key : String)
    (hnd : (players.map (·.name)).Nodup) (p : Player) (hp : p ∈ players)
    (m : String → Option ℝ)
    (hm : get_player_per_game_stats p stats_key = some m) :
    (p.name, pzOutOf φ players stats_key (fun stat => playerStatVal φ m stat)) ∈
      calculate_player_zscores φ players stats_key := by
  rw [calculate_player_zscores_eq, buildPlayerStats_eq φ players stats_key hnd]
  apply List.mem_map.mpr
  refine ⟨(p.name, fun stat => playerStatVal φ m stat), ?_, rfl⟩
  exact List.mem_filterMap.mpr ⟨p, hp, by rw [hm]; rfl⟩

theorem cpz_keys_nodup (φ : ℝ → ℝ) (players : List Player) (stats_key : String)
    (hnd : (players.map (·.name)).Nodup) :
    ((calculate_player_zscores φ players stats_key).map Prod.fst).Nodup := by
  rw [calculate_player_zscores_eq, buildPlayerStats_eq φ players stats_key hnd,
    List.map_map]
  have hcomp : (Prod.fst ∘ fun x : String × (String → Option ℝ) =>
      (x.1, pzOutOf φ players stats_key x.2)) = Prod.fst := rfl
  rw [hcomp]
  exact (filterMap_keys_sublist φ stats_key players).nodup hnd

theorem cpz_lookup (φ : ℝ → ℝ) (players : List Player) (stats_key : String)
    (hnd : (players.map (·.name)).Nodup) (p : Player) (hp : p ∈ players)
    (m : String → Option ℝ)
    (hm : get_player_per_game_stats p stats_key = some m) :
    dictLookup (calculate_player_zscores φ players stats_key) p.name =
      some (pzOutOf φ players stats_key (fun stat => playerStatVal φ m stat)) :=
  dictLookup_of_mem _ (cpz_keys_nodup φ players stats_key hnd) _ _
    (cpz_mem φ players stats_key hnd p hp m hm)

theorem mem_rawStats (φ : ℝ → ℝ) (players : List Player) (stats_key stat : String)
    (p : Player) (hp : p ∈ players) (m : String → Option ℝ)
    (hm : get_player_per_game_stats p stats_key = some m) (v : ℝ)
    (hv : playerStatVal φ m stat = some v) :
    v ∈ rawStats φ players stats_key stat := by
  unfold rawStats
  exact List.mem_filterMap.mpr ⟨p, hp, by rw [hm]; simpa using hv⟩

theorem pzOutOf_z (φ : ℝ → ℝ) (players : List Player) (stats_key stat : String)
    (p : Player) (hp : p ∈ players) (m : String → Option ℝ)
    (hm : get_player_per_game_stats p stats_key = some m) :
    (pzOutOf φ players stats_key (fun s => playerStatVal φ m s)).z stat =
      (if playerStatVal φ m stat ≠ none ∧
          popStd (rawStats φ players stats_key stat) ≠ 0
       then ((playerStatVal φ m stat).getD 0 -
          listMean (rawStats φ players stats_key stat)) /
          popStd (rawStats φ players stats_key stat)
       else 0) := by
  show (match playerStatVal φ m stat with
        | some v =>
          if statStdOf φ players stats_key stat ≠ 0 then
            (v - statMeanOf φ players stats_key stat) /
              statStdOf φ players stats_key stat
          else 0
        | none => 0) = _
  cases hv : playerStatVal φ m stat with
  | none =>
    show (0 : ℝ) = _
    rw [if_neg (fun hc => hc.1 rfl)]
  | some v =>
    show (if statStdOf φ players stats_key stat ≠ 0 then
        (v - statMeanOf φ players stats_key stat) /
          statStdOf φ players stats_key stat
      else 0) = _
    have hraw_ne : rawStats φ players stats_key stat ≠ [] :=
      List.ne_nil_of_mem (mem_rawStats φ players stats_key stat p hp m hm v hv)
    have hstd : statStdOf φ players stats_key stat =
        popStd (rawStats φ players stats_key stat) := by
      simp [statStdOf, hraw_ne]
    have hmean : statMeanOf φ players stats_key stat =
        listMean (rawStats φ players stats_key stat) := by
      simp [statMeanOf, hraw_ne]
    by_cases hsd : popStd (rawStats φ players stats_key stat) = 0
    · rw [if_neg (by rw [hstd]; simpa using hsd), if_neg (fun hc => hc.2 hsd)]
    · rw [if_pos (by rw [hstd]; exact hsd), if_pos ⟨by simp, hsd⟩, hstd, hmean]
      simp

/-- C7: for every player with per-game stats in a pool of distinct names and
every category, the z-score recorded by calculate_player_zscores equals
(value - populationMean) / populationStdDev over the eligible values of the
category, and equals 0.0 when the value is absent or the population standard
deviation is 0; a category with zero eligible values uses mean 0 and
standard deviation 1. -/
theorem c7_zscore_formula (φ : ℝ → ℝ) (players : List Player)
    (stats_key : String) (hnd : (players.map (·.name)).Nodup) (stat : String)
    (p : Player) (hp : p ∈ players) (m : String → Option ℝ)
    (hm : get_player_per_game_stats p stats_key = some m) :
    (rawStats φ players stats_key stat = [] →
      statMeanOf φ players stats_key stat = 0 ∧
        statStdOf φ players stats_key stat = 1) ∧
    ∃ zr, (p.name, zr) ∈ calculate_player_zscores φ players stats_key ∧
      zr.z stat =
        (if playerStatVal φ m stat ≠ none ∧
            popStd (rawStats φ players stats_key stat) ≠ 0
         then ((playerStatVal φ m stat).getD 0 -
            listMean (rawStats φ players stats_key stat)) /
            popStd (rawStats φ players stats_key stat)
         else 0) := by
  refine ⟨fun h => ⟨by simp [statMeanOf, h], by simp [statStdOf, h]⟩, ?_⟩
  exact ⟨pzOutOf φ players stats_key (fun s => playerStatVal φ m s),
    cpz_mem φ players stats_key hnd p hp m hm,
    pzOutOf_z φ players stats_key stat p hp m hm⟩

-- ==========================================================================
-- Claim C8: normalization correctness of the z-score pool
-- ==========================================================================
theorem eligibleZs_norm (φ : ℝ → ℝ) (players : List Player)
    (stats_key stat : String) (hnd : (players.map (·.name)).Nodup)
    (hsd : popStd (rawStats φ players stats_key stat) ≠ 0) :
    eligibleZs φ players stats_key stat =
      (rawStats φ players stats_key stat).map
        (fun v => (v - listMean (rawStats φ players stats_key stat)) /
          popStd (rawStats φ players stats_key stat)) := by
  have aux : ∀ (ps : List Player), (∀ q ∈ ps, q ∈ players) →
      ps.filterMap (fun p =>
        (get_player_per_game_stats p stats_key).bind (fun m =>
          (playerStatVal φ m stat).bind (fun _ =>
            (dictLookup (calculate_player_zscores φ players stats_key) p.name).map
              (·.z stat)))) =
      (ps.filterMap (fun p =>
        (get_player_per_game_stats p stats_key).bind
          (fun m => playerStatVal φ m stat))).map
        (fun v => (v - listMean (rawStats φ players stats_key stat)) /
          popStd (rawStats φ players stats_key stat)) := by
    intro ps
    induction ps with
    | nil => intro _; rfl
    | cons q t ih =>
      intro hsub
      have hq : q ∈ players := hsub q (List.mem_cons_self _ _)
      have ht : ∀ r ∈ t, r ∈ players := fun r hr => hsub r (List.mem_cons_of_mem _ hr)
      simp only [List.filterMap_cons]
      cases hm : get_player_per_game_stats q stats_key with
      | none =>
        simp only [Option.none_bind]
        exact ih ht
      | some m =>
        simp only [Option.some_bind]
        cases hv : playerStatVal φ m stat with
        | none =>
          simp only [Option.none_bind]
          exact ih ht
        | some v =>
          simp only [Option.some_bind]
          rw [cpz_lookup φ players stats_key hnd q hq m hm]
          simp only [Option.map_some']
          rw [ih ht]
          simp only [List.map_cons]
          congr 1
          rw [pzOutOf_z φ players stats_key stat q hq m hm, hv]
          rw [if_pos ⟨by simp, hsd⟩]
          simp
  exact aux players (fun q hq => hq)

/-- C8 (amended): for every pool with distinct player names and every
category whose eligible values have a nonzero population standard deviation,
the z-scores of exactly the eligible players (read from the
calculate_player_zscores output) have mean 0 and population standard
deviation 1; population (not sample) statistics are used, and eligibility is
per category.  When every eligible value is equal (in particular a single
eligible value) the population standard deviation of the pool is 0, all
z-scores are 0 and their standard deviation is 0, not 1. -/
theorem c8_zscore_normalization (φ : ℝ → ℝ) (players : List Player)
    (stats_key : String) (hnd : (players.map (·.name)).Nodup) (stat : String)
    (hne : rawStats φ players stats_key stat ≠ [])
    (hsd : popStd (rawStats φ players stats_key stat) ≠ 0) :
    listMean (eligibleZs φ players stats_key stat) = 0 ∧
    popStd (eligibleZs φ players stats_key stat) = 1 := by
  rw [eligibleZs_norm φ players stats_key stat hnd hsd]
  exact ⟨listMean_normalize _ hne _, popStd_normalize _ hne hsd⟩

theorem rawStats_duo :
    rawStats phiClamp [duoA, duoB] "k" "PTS" = [0, 2] := by
  simp [rawStats, duoA, duoB, get_player_per_game_stats, playerStatVal,
    extractStatVal]

theorem popStd_duo : popStd ([0, 2] : List ℝ) = 1 := by
  have h1 : listMean ([0, 2] : List ℝ) = 1 := by
    norm_num [listMean]
  have h2 : popVar ([0, 2] : List ℝ) = 1 := by
    norm_num [popVar, h1]
  rw [popStd, h2]
  exact Real.sqrt_one

/-- Witness for C8: the amended theorem applied to the two-player pool with
points values 0 and 2, whose population standard deviation is 1 (nonzero). -/
theorem c8_zscore_normalization_witness :
    (([duoA, duoB].map (·.name)).Nodup ∧
      rawStats phiClamp [duoA, duoB] "k" "PTS" ≠ [] ∧
      popStd (rawStats phiClamp [duoA, duoB] "k" "PTS") ≠ 0) ∧
    (listMean (eligibleZs phiClamp [duoA, duoB] "k" "PTS") = 0 ∧
      popStd (eligibleZs phiClamp [duoA, duoB] "k" "PTS") = 1) :=
  ⟨⟨by simp [duoA, duoB], by rw [rawStats_duo]; simp,
      by rw [rawStats_duo, popStd_duo]; norm_num⟩,
    c8_zscore_normalization phiClamp [duoA, duoB] "k"
      (by simp [duoA, duoB]) "PTS"
      (by rw [rawStats_duo]; simp)
      (by rw [rawStats_duo, popStd_duo]; norm_num)⟩

/-- Witness for C7: the formula theorem applied to the one-player pool. -/
theorem c7_zscore_formula_witness :
    (([soloPlayer].map (·.name)).Nodup ∧ soloPlayer ∈ [soloPlayer] ∧
      get_player_per_game_stats soloPlayer "k" =
        some (fun s => if s = "PTS" then some (10 : ℝ) else none)) ∧
    ((rawStats phiClamp [soloPlayer] "k" "PTS" = [] →
        statMeanOf phiClamp [soloPlayer] "k" "PTS" = 0 ∧
          statStdOf phiClamp [soloPlayer] "k" "PTS" = 1) ∧
      ∃ zr, (soloPlayer.name, zr) ∈ calculate_player_zscores phiClamp [soloPlayer] "k" ∧
        zr.z "PTS" =
          (if playerStatVal phiClamp
                (fun s => if s = "PTS" then some (10 : ℝ) else none) "PTS" ≠ none ∧
              popStd (rawStats phiClamp [soloPlayer] "k" "PTS") ≠ 0
           then ((playerStatVal phiClamp
                (fun s => if s = "PTS" then some (10 : ℝ) else none) "PTS").getD 0 -
              listMean (rawStats phiClamp [soloPlayer] "k" "PTS")) /
              popStd (rawStats phiClamp [soloPlayer] "k" "PTS")
           else 0)) :=
  ⟨⟨by simp [soloPlayer], by simp, rfl⟩,
    c7_zscore_formula phiClamp [soloPlayer] "k" (by simp [soloPlayer]) "PTS"
      soloPlayer (by simp) _ rfl⟩

theorem rawStats_solo : rawStats phiClamp [soloPlayer] "k" "PTS" = [10] := by
  simp [rawStats, soloPlayer, get_player_per_game_stats, playerStatVal,
    extractStatVal]

theorem popStd_ten : popStd ([10] : List ℝ) = 0 := by
  have h2 : popVar ([10] : List ℝ) = 0 := by norm_num [popVar, listMean]
  rw [popStd, h2]
  exact Real.sqrt_zero

theorem popStd_zero_single : popStd ([0] : List ℝ) = 0 := by
  have h2 : popVar ([0] : List ℝ) = 0 := by norm_num [popVar, listMean]
  rw [popStd, h2]
  exact Real.sqrt_zero

/-- C8 counterexample: the points category of a one-player pool has one
eligible value, yet the z-score pool of that category is [0] with population
standard deviation 0, not 1: the claim fails whenever the population
standard deviation of the eligible values is 0. -/
theorem c8_counterexample :
    rawStats phiClamp [soloPlayer] "k" "PTS" ≠ [] ∧
    eligibleZs phiClamp [soloPlayer] "k" "PTS" = [0] ∧
    popStd (eligibleZs phiClamp [soloPlayer] "k" "PTS") = 0 := by
  have hraw := rawStats_solo
  have hm : get_player_per_game_stats soloPlayer "k" =
      some (fun s => if s = "PTS" then some (10 : ℝ) else none) := rfl
  have hz := pzOutOf_z phiClamp [soloPlayer] "k" "PTS" soloPlayer (by simp)
    (fun s => if s = "PTS" then some (10 : ℝ) else none) hm
  rw [if_neg (fun hc => hc.2 (by rw [hraw]; exact popStd_ten))] at hz
  have helig : eligibleZs phiClamp [soloPlayer] "k" "PTS" = [0] := by
    have hlook := cpz_lookup phiClamp [soloPlayer] "k" (by simp [soloPlayer])
      soloPlayer (by simp) _ hm
    have hv : playerStatVal phiClamp
        (fun s => if s = "PTS" then some (10 : ℝ) else none) "PTS" = some 10 := by
      simp [playerStatVal, extractStatVal]
    simp only [eligibleZs, List.filterMap_cons, List.filterMap_nil, hm,
      Option.some_bind]
    rw [hv]
    simp only [Option.some_bind]
    rw [hlook]
    simp only [Option.map_some']
    rw [hz]
  exact ⟨by rw [hraw]; simp, helig, by rw [helig]; exact popStd_zero_single⟩
